import Mathlib

/-
Verification of the gecko repository core: the Packer byte codec
(src/utils/wrappers/packing.go) and the TimestampVM (timestampvm package).
Machine integers are modelled as Nat with explicit truncation where Go
converts between widths; Go `int` values that can be negative (Offset,
size arguments) are modelled as Int.  A Go byte slice is a List Nat whose
entries are below 256 wherever the Go type system guarantees it.
-/

namespace Gecko

/-- Big-endian encoding of a natural number into exactly w bytes, truncating
modulo 2^(8*w) exactly as Go's byte(v >> k) conversions do. -/
def beBytes : Nat → Nat → List Nat
  | 0, _ => []
  | w + 1, v => beBytes w (v / 256) ++ [v % 256]

/-- Big-endian read of a byte list, as binary.BigEndian.UintN does. -/
def beRead (l : List Nat) : Nat :=
  l.foldl (fun a b => a * 256 + b) 0

/-- Overwrite the region of bs starting at off with the given bytes, as a Go
copy into bs[off:] does when the region fits. -/
def writeAt (bs : List Nat) (off : Nat) (piece : List Nat) : List Nat :=
  bs.take off ++ piece ++ bs.drop (off + piece.length)

/-- Read w bytes of bs starting at off, as Go slicing bs[off : off+w] does
when the region fits. -/
def readAt (bs : List Nat) (off w : Nat) : List Nat :=
  (bs.drop off).take w

/-- The error values of packing.go: errBadLength, errNegativeOffset,
errInvalidInput, errBadType, errBadBool. -/
inductive PackErr where
  | badLength
  | negativeOffset
  | invalidInput
  | badType
  | badBool
deriving DecidableEq

/-- utils.IPDesc: an IP given as a byte slice plus a 16-bit port. -/
structure IPDesc where
  ip : List Nat
  port : Nat
deriving DecidableEq

/-- Go net.IP.To16: a 4-byte IPv4 address is embedded in IPv6 form, a
16-byte address is returned unchanged, anything else gives nil. -/
def to16 (ip : List Nat) : List Nat :=
  if ip.length = 4 then [0, 0, 0, 0, 0, 0, 0, 0, 0, 0, 255, 255] ++ ip
  else if ip.length = 16 then ip
  else []

/-- The Packer of packing.go: accumulated errors (the embedded Errs),
MaxSize, Bytes and Offset.  Capacity of the Go slice is not modelled: in
this program the backing array beyond the logical length always holds
zero bytes, so Expand is modelled as zero padding. -/
structure Packer where
  errs : List PackErr
  maxSize : Int
  bytes : List Nat
  offset : Int
deriving DecidableEq

namespace Packer

/-- Errs.Add: append an error. -/
def Add (p : Packer) (e : PackErr) : Packer :=
  { p with errs := p.errs ++ [e] }

/-- Errs.Errored: whether any error has been accumulated. -/
def Errored (p : Packer) : Bool :=
  !p.errs.isEmpty

/-- Packer.CheckSpace. -/
def CheckSpace (p : Packer) (n : Int) : Packer :=
  if p.offset < 0 then p.Add .negativeOffset
  else if n < 0 then p.Add .invalidInput
  else if (p.bytes.length : Int) - p.offset < n then p.Add .badLength
  else p

/-- Packer.Expand.  The two growth branches of the source (reslicing within
capacity, and append with doubling) agree on the logical byte content,
which is all this model tracks. -/
def Expand (p : Packer) (n : Int) : Packer :=
  let p := p.CheckSpace 0
  if p.Errored then p
  else
    let needed := n + p.offset
    if needed ≤ (p.bytes.length : Int) then p
    else if needed > p.maxSize then p.Add .badLength
    else { p with bytes := p.bytes ++ List.replicate (needed - p.bytes.length).toNat 0 }

/-- Packer.PackByte. -/
def PackByte (p : Packer) (v : Nat) : Packer :=
  let p := p.Expand 1
  if p.Errored then p
  else { p with bytes := writeAt p.bytes p.offset.toNat [v], offset := p.offset + 1 }

/-- Packer.UnpackByte. -/
def UnpackByte (p : Packer) : Nat × Packer :=
  let p := p.CheckSpace 1
  if p.Errored then (0, p)
  else (p.bytes.getD p.offset.toNat 0, { p with offset := p.offset + 1 })

/-- Packer.PackShort. -/
def PackShort (p : Packer) (v : Nat) : Packer :=
  let p := p.Expand 2
  if p.Errored then p
  else { p with bytes := writeAt p.bytes p.offset.toNat (beBytes 2 v), offset := p.offset + 2 }

/-- Packer.UnpackShort. -/
def UnpackShort (p : Packer) : Nat × Packer :=
  let p := p.CheckSpace 2
  if p.Errored then (0, p)
  else (beRead (readAt p.bytes p.offset.toNat 2), { p with offset := p.offset + 2 })

/-- Packer.PackInt. -/
def PackInt (p : Packer) (v : Nat) : Packer :=
  let p := p.Expand 4
  if p.Errored then p
  else { p with bytes := writeAt p.bytes p.offset.toNat (beBytes 4 v), offset := p.offset + 4 }

/-- Packer.UnpackInt. -/
def UnpackInt (p : Packer) : Nat × Packer :=
  let p := p.CheckSpace 4
  if p.Errored then (0, p)
  else (beRead (readAt p.bytes p.offset.toNat 4), { p with offset := p.offset + 4 })

/-- Packer.PackLong. -/
def PackLong (p : Packer) (v : Nat) : Packer :=
  let p := p.Expand 8
  if p.Errored then p
  else { p with bytes := writeAt p.bytes p.offset.toNat (beBytes 8 v), offset := p.offset + 8 }

/-- Packer.UnpackLong. -/
def UnpackLong (p : Packer) : Nat × Packer :=
  let p := p.CheckSpace 8
  if p.Errored then (0, p)
  else (beRead (readAt p.bytes p.offset.toNat 8), { p with offset := p.offset + 8 })

/-- Packer.PackBool. -/
def PackBool (p : Packer) (b : Bool) : Packer :=
  if b then p.PackByte 1 else p.PackByte 0

/-- Packer.UnpackBool. -/
def UnpackBool (p : Packer) : Bool × Packer :=
  let r := p.UnpackByte
  if r.1 = 0 then (false, r.2)
  else if r.1 = 1 then (true, r.2)
  else (false, r.2.Add .badBool)

/-- Packer.PackFixedBytes. -/
def PackFixedBytes (p : Packer) (bs : List Nat) : Packer :=
  let p := p.Expand bs.length
  if p.Errored then p
  else { p with bytes := writeAt p.bytes p.offset.toNat bs, offset := p.offset + bs.length }

/-- Packer.UnpackFixedBytes; the failure value nil is the empty list. -/
def UnpackFixedBytes (p : Packer) (size : Int) : List Nat × Packer :=
  let p := p.CheckSpace size
  if p.Errored then ([], p)
  else (readAt p.bytes p.offset.toNat size.toNat, { p with offset := p.offset + size })

/-- Packer.PackBytes; uint32(len bs) truncation is performed by beBytes
inside PackInt. -/
def PackBytes (p : Packer) (bs : List Nat) : Packer :=
  (p.PackInt bs.length).PackFixedBytes bs

/-- Packer.UnpackBytes. -/
def UnpackBytes (p : Packer) : List Nat × Packer :=
  let r := p.UnpackInt
  r.2.UnpackFixedBytes r.1

/-- Packer.PackFixedByteSlices: the loop packs every slice with no error
check between iterations. -/
def PackFixedByteSlices (p : Packer) (bss : List (List Nat)) : Packer :=
  bss.foldl PackFixedBytes (p.PackInt bss.length)

end Packer

/-- The loop of Packer.UnpackFixedByteSlices: the condition checks
Errored before every iteration, and the result of a failing element
unpack (nil) is still appended. -/
def UnpackFBSLoop (size : Int) : Nat → Packer → List (List Nat) × Packer
  | 0, p => ([], p)
  | k + 1, p =>
    if p.Errored then ([], p)
    else
      let r := p.UnpackFixedBytes size
      let rest := UnpackFBSLoop size k r.2
      (r.1 :: rest.1, rest.2)

namespace Packer

/-- Packer.UnpackFixedByteSlices. -/
def UnpackFixedByteSlices (p : Packer) (size : Int) : List (List Nat) × Packer :=
  let r := p.UnpackInt
  UnpackFBSLoop size r.1 r.2

/-- Packer.PackStr: record InvalidInput when the string is longer than
MaxStringLen = 65535, then pack the 2-byte length and the content
(both no-ops once errored). -/
def PackStr (p : Packer) (s : List Nat) : Packer :=
  let p := if 65535 < s.length then p.Add .invalidInput else p
  (p.PackShort s.length).PackFixedBytes s

/-- Packer.UnpackStr. -/
def UnpackStr (p : Packer) : List Nat × Packer :=
  let r := p.UnpackShort
  r.2.UnpackFixedBytes r.1

/-- Packer.PackIP. -/
def PackIP (p : Packer) (d : IPDesc) : Packer :=
  (p.PackFixedBytes (to16 d.ip)).PackShort d.port

/-- Packer.UnpackIP. -/
def UnpackIP (p : Packer) : IPDesc × Packer :=
  let r := p.UnpackFixedBytes 16
  let q := r.2.UnpackShort
  (⟨r.1, q.1⟩, q.2)

end Packer

/-- The loop of Packer.PackIPs: unlike PackFixedByteSlices, this loop
checks Errored before every iteration. -/
def PackIPsLoop : Packer → List IPDesc → Packer
  | p, [] => p
  | p, d :: ds => if p.Errored then p else PackIPsLoop (p.PackIP d) ds

/-- The loop of Packer.UnpackIPs. -/
def UnpackIPsLoop : Nat → Packer → List IPDesc × Packer
  | 0, p => ([], p)
  | k + 1, p =>
    if p.Errored then ([], p)
    else
      let r := p.UnpackIP
      let rest := UnpackIPsLoop k r.2
      (r.1 :: rest.1, rest.2)

namespace Packer

/-- Packer.PackIPs. -/
def PackIPs (p : Packer) (ips : List IPDesc) : Packer :=
  PackIPsLoop (p.PackInt ips.length) ips

/-- Packer.UnpackIPs. -/
def UnpackIPs (p : Packer) : List IPDesc × Packer :=
  let r := p.UnpackInt
  UnpackIPsLoop r.1 r.2

end Packer

/-- A fresh packer with the given maximum size, as wrappers.Packer with
empty byte slice and zero offset. -/
def freshPacker (m : Int) : Packer :=
  ⟨[], m, [], 0⟩

/-- One typed value for each Packer operation pair: byte, bool, short,
int, long, bytes, fixed bytes, fixed byte slices (with their common
element size), string, ip and ip list. -/
inductive Item where
  | ibyte (v : Nat)
  | ibool (b : Bool)
  | ishort (v : Nat)
  | iint (v : Nat)
  | ilong (v : Nat)
  | ibytes (bs : List Nat)
  | ifixed (bs : List Nat)
  | islices (sz : Nat) (bss : List (List Nat))
  | istr (s : List Nat)
  | iip (d : IPDesc)
  | iips (ds : List IPDesc)
deriving DecidableEq

/-- All entries of a byte list are in the range of a Go byte. -/
def bytesWF (bs : List Nat) : Prop :=
  ∀ b ∈ bs, b < 256

instance (bs : List Nat) : Decidable (bytesWF bs) :=
  List.decidableBAll _ bs

/-- The domain of the ip operation: a 16-byte address and a 16-bit port. -/
def ipWF (d : IPDesc) : Prop :=
  d.ip.length = 16 ∧ bytesWF d.ip ∧ d.port < 2 ^ 16

instance (d : IPDesc) : Decidable (ipWF d) := by
  unfold ipWF; infer_instance

/-- The domain of each typed operation, matching the Go value types. -/
def Item.wf : Item → Prop
  | .ibyte v => v < 256
  | .ibool _ => True
  | .ishort v => v < 2 ^ 16
  | .iint v => v < 2 ^ 32
  | .ilong v => v < 2 ^ 64
  | .ibytes bs => bytesWF bs ∧ bs.length < 2 ^ 32
  | .ifixed bs => bytesWF bs
  | .islices sz bss => bss.length < 2 ^ 32 ∧ ∀ b ∈ bss, bytesWF b ∧ b.length = sz
  | .istr s => bytesWF s ∧ s.length ≤ 65535
  | .iip d => ipWF d
  | .iips ds => ds.length < 2 ^ 32 ∧ ∀ d ∈ ds, ipWF d

instance (it : Item) : Decidable it.wf := by
  cases it <;> unfold Item.wf <;> infer_instance

/-- The wire encoding of one item, as laid out by packing.go. -/
def Item.encode : Item → List Nat
  | .ibyte v => [v]
  | .ibool b => [if b then 1 else 0]
  | .ishort v => beBytes 2 v
  | .iint v => beBytes 4 v
  | .ilong v => beBytes 8 v
  | .ibytes bs => beBytes 4 bs.length ++ bs
  | .ifixed bs => bs
  | .islices _ bss => beBytes 4 bss.length ++ bss.flatten
  | .istr s => beBytes 2 s.length ++ s
  | .iip d => d.ip ++ beBytes 2 d.port
  | .iips ds => beBytes 4 ds.length ++ (ds.map (fun d => d.ip ++ beBytes 2 d.port)).flatten

/-- Dispatch one pack operation. -/
def packItem (p : Packer) : Item → Packer
  | .ibyte v => p.PackByte v
  | .ibool b => p.PackBool b
  | .ishort v => p.PackShort v
  | .iint v => p.PackInt v
  | .ilong v => p.PackLong v
  | .ibytes bs => p.PackBytes bs
  | .ifixed bs => p.PackFixedBytes bs
  | .islices _ bss => p.PackFixedByteSlices bss
  | .istr s => p.PackStr s
  | .iip d => p.PackIP d
  | .iips ds => p.PackIPs ds

/-- Dispatch one unpack operation; the argument item supplies only the
shape information a Go caller would (which op to call, and the size
arguments of the fixed-width ops). -/
def unpackItem (p : Packer) : Item → Item × Packer
  | .ibyte _ => let r := p.UnpackByte; (.ibyte r.1, r.2)
  | .ibool _ => let r := p.UnpackBool; (.ibool r.1, r.2)
  | .ishort _ => let r := p.UnpackShort; (.ishort r.1, r.2)
  | .iint _ => let r := p.UnpackInt; (.iint r.1, r.2)
  | .ilong _ => let r := p.UnpackLong; (.ilong r.1, r.2)
  | .ibytes _ => let r := p.UnpackBytes; (.ibytes r.1, r.2)
  | .ifixed bs => let r := p.UnpackFixedBytes bs.length; (.ifixed r.1, r.2)
  | .islices sz _ => let r := p.UnpackFixedByteSlices sz; (.islices sz r.1, r.2)
  | .istr _ => let r := p.UnpackStr; (.istr r.1, r.2)
  | .iip _ => let r := p.UnpackIP; (.iip r.1, r.2)
  | .iips _ => let r := p.UnpackIPs; (.iips r.1, r.2)

/-- The zero value each unpack operation returns on an errored packer. -/
def zeroOf : Item → Item
  | .ibyte _ => .ibyte 0
  | .ibool _ => .ibool false
  | .ishort _ => .ishort 0
  | .iint _ => .iint 0
  | .ilong _ => .ilong 0
  | .ibytes _ => .ibytes []
  | .ifixed _ => .ifixed []
  | .islices sz _ => .islices sz []
  | .istr _ => .istr []
  | .iip _ => .iip ⟨[], 0⟩
  | .iips _ => .iips []

/-- Pack a sequence of items in order. -/
def packItems (p : Packer) (items : List Item) : Packer :=
  items.foldl packItem p

/-- Unpack a sequence of items in order. -/
def unpackItems (p : Packer) : List Item → List Item × Packer
  | [] => ([], p)
  | it :: its =>
    let r := unpackItem p it
    let rest := unpackItems r.2 its
    (r.1 :: rest.1, rest.2)

/-- Total encoded length of a sequence. -/
def encodeAll (items : List Item) : List Nat :=
  (items.map Item.encode).flatten

theorem beBytes_length (w v : Nat) : (beBytes w v).length = w := by
  induction w generalizing v with
  | zero => rfl
  | succ w ih => simp [beBytes, ih]

theorem beRead_append_one (l : List Nat) (y : Nat) :
    beRead (l ++ [y]) = beRead l * 256 + y := by
  simp [beRead, List.foldl_append]

theorem beRead_beBytes (w v : Nat) : beRead (beBytes w v) = v % 256 ^ w := by
  induction w generalizing v with
  | zero => simp [beBytes, beRead, Nat.mod_one]
  | succ w ih =>
    rw [beBytes, beRead_append_one, ih]
    have h : (256 : Nat) ^ (w + 1) = 256 * 256 ^ w := by ring
    rw [h, Nat.mod_mul]
    omega

theorem readAt_mid (pre mid suf : List Nat) :
    readAt (pre ++ mid ++ suf) pre.length mid.length = mid := by
  simp [readAt]

theorem writeAt_append (bs piece : List Nat) (k : Nat) (hk : piece.length = k) :
    writeAt (bs ++ List.replicate k 0) bs.length piece = bs ++ piece := by
  subst hk
  have hlen : (bs ++ List.replicate piece.length 0).length = bs.length + piece.length := by
    simp
  simp [writeAt, List.take_left, List.drop_eq_nil_of_le, hlen.le]

theorem getD_append_length (pre : List Nat) (v : Nat) (suf : List Nat) :
    (pre ++ v :: suf).getD pre.length 0 = v := by
  induction pre with
  | nil => rfl
  | cons a l ih => simpa using ih

theorem Errored_eq_false (p : Packer) (he : p.errs = []) : p.Errored = false := by
  simp [Packer.Errored, he]

theorem Errored_ne (p : Packer) (he : p.errs ≠ []) : p.Errored = true := by
  simp [Packer.Errored, he]

theorem CheckSpace_pass (p : Packer) (n : Int) (h0 : 0 ≤ p.offset)
    (hn : 0 ≤ n) (hle : p.offset + n ≤ (p.bytes.length : Int)) :
    p.CheckSpace n = p := by
  rw [Packer.CheckSpace, if_neg (by omega), if_neg (by omega), if_neg (by omega)]

theorem CheckSpace_preserve (p : Packer) (n : Int) :
    (p.CheckSpace n).bytes = p.bytes ∧ (p.CheckSpace n).offset = p.offset ∧
      (p.CheckSpace n).maxSize = p.maxSize := by
  unfold Packer.CheckSpace Packer.Add
  split_ifs <;> simp

theorem CheckSpace_errs (p : Packer) (n : Int) :
    (p.CheckSpace n).errs = p.errs ∨ ∃ e, (p.CheckSpace n).errs = p.errs ++ [e] := by
  unfold Packer.CheckSpace Packer.Add
  split_ifs <;> simp

theorem CheckSpace_errored (p : Packer) (n : Int) (he : p.Errored = true) :
    (p.CheckSpace n).Errored = true := by
  rcases CheckSpace_errs p n with h | ⟨e, h⟩ <;>
    simp_all [Packer.Errored]

theorem Expand_offset (p : Packer) (n : Int) : (p.Expand n).offset = p.offset := by
  have h := CheckSpace_preserve p 0
  unfold Packer.Expand Packer.Add
  dsimp only
  split_ifs <;> simp [h.2.1]

theorem Expand_errored_eq (p : Packer) (n : Int) (he : p.Errored = true) :
    p.Expand n = p.CheckSpace 0 := by
  rw [Packer.Expand]
  simp [CheckSpace_errored p 0 he]

theorem Expand_append (p : Packer) (n : Int) (he : p.errs = [])
    (hoff : p.offset = (p.bytes.length : Int)) (hn : 0 ≤ n)
    (hm : p.offset + n ≤ p.maxSize) :
    p.Expand n = { p with bytes := p.bytes ++ List.replicate n.toNat 0 } := by
  have hcs : p.CheckSpace 0 = p := CheckSpace_pass p 0 (by omega) le_rfl (by omega)
  rw [Packer.Expand]
  simp only [hcs, Errored_eq_false p he, Bool.false_eq_true, if_false]
  by_cases hz : n = 0
  · subst hz
    rw [if_pos (by omega)]
    simp
  · rw [if_neg (by omega), if_neg (by omega)]
    have harg : n + p.offset - (p.bytes.length : Int) = n := by omega
    rw [harg]

theorem PackByte_append (p : Packer) (v : Nat) (he : p.errs = [])
    (hoff : p.offset = (p.bytes.length : Int)) (hm : p.offset + 1 ≤ p.maxSize) :
    p.PackByte v = ⟨[], p.maxSize, p.bytes ++ [v], p.offset + 1⟩ := by
  have hE := Expand_append p 1 he hoff (by omega) hm
  have hw := writeAt_append p.bytes [v] 1 rfl
  rw [Packer.PackByte]
  simp [hE, Packer.Errored, he, hoff]
  simpa using hw

theorem PackShort_append (p : Packer) (v : Nat) (he : p.errs = [])
    (hoff : p.offset = (p.bytes.length : Int)) (hm : p.offset + 2 ≤ p.maxSize) :
    p.PackShort v = ⟨[], p.maxSize, p.bytes ++ beBytes 2 v, p.offset + 2⟩ := by
  have hE := Expand_append p 2 he hoff (by omega) hm
  have hw := writeAt_append p.bytes (beBytes 2 v) 2 (beBytes_length 2 v)
  rw [Packer.PackShort]
  simp [hE, Packer.Errored, he, hoff]
  simpa using hw

theorem PackInt_append (p : Packer) (v : Nat) (he : p.errs = [])
    (hoff : p.offset = (p.bytes.length : Int)) (hm : p.offset + 4 ≤ p.maxSize) :
    p.PackInt v = ⟨[], p.maxSize, p.bytes ++ beBytes 4 v, p.offset + 4⟩ := by
  have hE := Expand_append p 4 he hoff (by omega) hm
  have hw := writeAt_append p.bytes (beBytes 4 v) 4 (beBytes_length 4 v)
  rw [Packer.PackInt]
  simp [hE, Packer.Errored, he, hoff]
  simpa using hw

theorem PackLong_append (p : Packer) (v : Nat) (he : p.errs = [])
    (hoff : p.offset = (p.bytes.length : Int)) (hm : p.offset + 8 ≤ p.maxSize) :
    p.PackLong v = ⟨[], p.maxSize, p.bytes ++ beBytes 8 v, p.offset + 8⟩ := by
  have hE := Expand_append p 8 he hoff (by omega) hm
  have hw := writeAt_append p.bytes (beBytes 8 v) 8 (beBytes_length 8 v)
  rw [Packer.PackLong]
  simp [hE, Packer.Errored, he, hoff]
  simpa using hw

theorem PackFixedBytes_append (p : Packer) (bs : List Nat) (he : p.errs = [])
    (hoff : p.offset = (p.bytes.length : Int))
    (hm : p.offset + bs.length ≤ p.maxSize) :
    p.PackFixedBytes bs = ⟨[], p.maxSize, p.bytes ++ bs, p.offset + bs.length⟩ := by
  have hE := Expand_append p bs.length he hoff (by omega) hm
  have hw := writeAt_append p.bytes bs bs.length rfl
  rw [Packer.PackFixedBytes]
  simp [hE, Packer.Errored, he, hoff, hw]

theorem readAt_word (pre : List Nat) (w v : Nat) (suf : List Nat) (hv : v < 256 ^ w) :
    beRead (readAt (pre ++ beBytes w v ++ suf) pre.length w) = v := by
  have h := readAt_mid pre (beBytes w v) suf
  rw [beBytes_length] at h
  rw [h, beRead_beBytes, Nat.mod_eq_of_lt hv]

theorem UnpackByte_mid (p : Packer) (pre : List Nat) (v : Nat) (suf : List Nat)
    (he : p.errs = []) (hb : p.bytes = pre ++ [v] ++ suf)
    (hoff : p.offset = (pre.length : Int)) :
    p.UnpackByte = (v, { p with offset := p.offset + 1 }) := by
  have hlen : p.bytes.length = pre.length + (1 + suf.length) := by
    rw [hb]; simp; omega
  have hcs : p.CheckSpace 1 = p :=
    CheckSpace_pass p 1 (by omega) (by omega) (by omega)
  rw [Packer.UnpackByte]
  simp only [hcs, Errored_eq_false p he, Bool.false_eq_true, if_false]
  rw [hb, hoff]
  simpa using getD_append_length pre v suf

theorem UnpackShort_mid (p : Packer) (pre : List Nat) (v : Nat) (suf : List Nat)
    (he : p.errs = []) (hb : p.bytes = pre ++ beBytes 2 v ++ suf)
    (hoff : p.offset = (pre.length : Int)) (hv : v < 2 ^ 16) :
    p.UnpackShort = (v, { p with offset := p.offset + 2 }) := by
  have hlen : p.bytes.length = pre.length + (2 + suf.length) := by
    rw [hb]; simp [beBytes_length]
  have hcs : p.CheckSpace 2 = p :=
    CheckSpace_pass p 2 (by omega) (by omega) (by omega)
  rw [Packer.UnpackShort]
  simp only [hcs, Errored_eq_false p he, Bool.false_eq_true, if_false]
  rw [hb, hoff]
  simpa using readAt_word pre 2 v suf (by norm_num at hv ⊢; omega)

theorem UnpackInt_mid (p : Packer) (pre : List Nat) (v : Nat) (suf : List Nat)
    (he : p.errs = []) (hb : p.bytes = pre ++ beBytes 4 v ++ suf)
    (hoff : p.offset = (pre.length : Int)) (hv : v < 2 ^ 32) :
    p.UnpackInt = (v, { p with offset := p.offset + 4 }) := by
  have hlen : p.bytes.length = pre.length + (4 + suf.length) := by
    rw [hb]; simp [beBytes_length]
  have hcs : p.CheckSpace 4 = p :=
    CheckSpace_pass p 4 (by omega) (by omega) (by omega)
  rw [Packer.UnpackInt]
  simp only [hcs, Errored_eq_false p he, Bool.false_eq_true, if_false]
  rw [hb, hoff]
  simpa using readAt_word pre 4 v suf (by norm_num at hv ⊢; omega)

theorem UnpackLong_mid (p : Packer) (pre : List Nat) (v : Nat) (suf : List Nat)
    (he : p.errs = []) (hb : p.bytes = pre ++ beBytes 8 v ++ suf)
    (hoff : p.offset = (pre.length : Int)) (hv : v < 2 ^ 64) :
    p.UnpackLong = (v, { p with offset := p.offset + 8 }) := by
  have hlen : p.bytes.length = pre.length + (8 + suf.length) := by
    rw [hb]; simp [beBytes_length]
  have hcs : p.CheckSpace 8 = p :=
    CheckSpace_pass p 8 (by omega) (by omega) (by omega)
  rw [Packer.UnpackLong]
  simp only [hcs, Errored_eq_false p he, Bool.false_eq_true, if_false]
  rw [hb, hoff]
  simpa using readAt_word pre 8 v suf (by norm_num at hv ⊢; omega)

theorem UnpackFixedBytes_mid (p : Packer) (pre mid suf : List Nat)
    (he : p.errs = []) (hb : p.bytes = pre ++ mid ++ suf)
    (hoff : p.offset = (pre.length : Int)) :
    p.UnpackFixedBytes mid.length = (mid, { p with offset := p.offset + mid.length }) := by
  have hlen : p.bytes.length = pre.length + (mid.length + suf.length) := by
    rw [hb]; simp
  have hcs : p.CheckSpace mid.length = p :=
    CheckSpace_pass p mid.length (by omega) (by omega) (by omega)
  rw [Packer.UnpackFixedBytes]
  simp only [hcs, Errored_eq_false p he, Bool.false_eq_true, if_false]
  rw [hb, hoff]
  simpa using readAt_mid pre mid suf

theorem UnpackBool_mid (p : Packer) (pre : List Nat) (b : Bool) (suf : List Nat)
    (he : p.errs = []) (hb : p.bytes = pre ++ [if b then 1 else 0] ++ suf)
    (hoff : p.offset = (pre.length : Int)) :
    p.UnpackBool = (b, { p with offset := p.offset + 1 }) := by
  have hB := UnpackByte_mid p pre (if b then 1 else 0) suf he hb hoff
  rw [Packer.UnpackBool]
  cases b <;> simp [hB]

theorem PackBool_append (p : Packer) (b : Bool) (he : p.errs = [])
    (hoff : p.offset = (p.bytes.length : Int)) (hm : p.offset + 1 ≤ p.maxSize) :
    p.PackBool b = ⟨[], p.maxSize, p.bytes ++ [if b then 1 else 0], p.offset + 1⟩ := by
  cases b <;> simp [Packer.PackBool, PackByte_append p _ he hoff hm]

theorem PackBytes_append (p : Packer) (bs : List Nat) (he : p.errs = [])
    (hoff : p.offset = (p.bytes.length : Int))
    (hm : p.offset + (4 + bs.length) ≤ p.maxSize) :
    p.PackBytes bs =
      ⟨[], p.maxSize, p.bytes ++ (beBytes 4 bs.length ++ bs), p.offset + (4 + bs.length)⟩ := by
  rw [Packer.PackBytes]
  rw [PackInt_append p bs.length he hoff (by omega)]
  rw [PackFixedBytes_append _ bs rfl (by simp [beBytes_length]; omega) (by simp; omega)]
  simp [List.append_assoc]
  omega

theorem PackStr_append (p : Packer) (s : List Nat) (hs : s.length ≤ 65535)
    (he : p.errs = []) (hoff : p.offset = (p.bytes.length : Int))
    (hm : p.offset + (2 + s.length) ≤ p.maxSize) :
    p.PackStr s =
      ⟨[], p.maxSize, p.bytes ++ (beBytes 2 s.length ++ s), p.offset + (2 + s.length)⟩ := by
  rw [Packer.PackStr]
  simp only [if_neg (by omega : ¬ 65535 < s.length)]
  rw [PackShort_append p s.length he hoff (by omega)]
  rw [PackFixedBytes_append _ s rfl (by simp [beBytes_length]; omega) (by simp; omega)]
  simp [List.append_assoc]
  omega

theorem PackIP_append (p : Packer) (d : IPDesc) (hwf : ipWF d) (he : p.errs = [])
    (hoff : p.offset = (p.bytes.length : Int))
    (hm : p.offset + 18 ≤ p.maxSize) :
    p.PackIP d =
      ⟨[], p.maxSize, p.bytes ++ (d.ip ++ beBytes 2 d.port), p.offset + 18⟩ := by
  have ht : to16 d.ip = d.ip := by
    rw [to16, hwf.1]
    norm_num
  rw [Packer.PackIP, ht]
  rw [PackFixedBytes_append p d.ip he hoff (by rw [hwf.1]; omega)]
  rw [PackShort_append _ d.port rfl (by simp; omega) (by simp [hwf.1]; omega)]
  simp [List.append_assoc, hwf.1]
  omega

theorem foldl_PackFixedBytes_append (bss : List (List Nat)) :
    ∀ p : Packer, p.errs = [] → p.offset = (p.bytes.length : Int) →
      p.offset + (bss.flatten).length ≤ p.maxSize →
      bss.foldl Packer.PackFixedBytes p =
        ⟨[], p.maxSize, p.bytes ++ bss.flatten, p.offset + (bss.flatten).length⟩ := by
  induction bss with
  | nil =>
    intro p he hoff hm
    obtain ⟨e, m, b, o⟩ := p
    simp_all
  | cons b bs ih =>
    intro p he hoff hm
    rw [List.flatten_cons, List.length_append] at hm
    push_cast at hm
    simp only [List.foldl_cons]
    rw [PackFixedBytes_append p b he hoff (by omega)]
    rw [ih _ rfl (by dsimp only; rw [List.length_append]; push_cast; omega) (by dsimp only; omega)]
    rw [List.flatten_cons]
    simp only [Packer.mk.injEq, List.length_append, List.append_assoc]
    refine ⟨trivial, trivial, trivial, by push_cast; ring⟩

theorem PackIPsLoop_append (ds : List IPDesc) :
    ∀ p : Packer, (∀ d ∈ ds, ipWF d) → p.errs = [] →
      p.offset = (p.bytes.length : Int) →
      p.offset + ((ds.map (fun d => d.ip ++ beBytes 2 d.port)).flatten).length ≤ p.maxSize →
      PackIPsLoop p ds =
        ⟨[], p.maxSize, p.bytes ++ (ds.map (fun d => d.ip ++ beBytes 2 d.port)).flatten,
          p.offset + ((ds.map (fun d => d.ip ++ beBytes 2 d.port)).flatten).length⟩ := by
  induction ds with
  | nil =>
    intro p hwf he hoff hm
    obtain ⟨e, m, b, o⟩ := p
    simp_all [PackIPsLoop]
  | cons d ds ih =>
    intro p hwf he hoff hm
    have hd : ipWF d := hwf d (by simp)
    have hlen : (d.ip ++ beBytes 2 d.port).length = 18 := by
      simp only [List.length_append, beBytes_length, hd.1]
    rw [List.map_cons, List.flatten_cons, List.length_append, hlen] at hm
    push_cast at hm
    rw [PackIPsLoop, if_neg (by simp [Errored_eq_false p he])]
    rw [PackIP_append p d hd he hoff (by omega)]
    rw [ih _ (fun x hx => hwf x (by simp [hx])) rfl
      (by dsimp only; rw [List.length_append, hlen]; push_cast; omega)
      (by dsimp only; omega)]
    rw [List.map_cons, List.flatten_cons]
    simp only [Packer.mk.injEq, List.length_append, List.append_assoc, beBytes_length, hd.1]
    refine ⟨trivial, trivial, trivial, by push_cast; ring⟩

theorem packItem_append (it : Item) (p : Packer) (hwf : it.wf) (he : p.errs = [])
    (hoff : p.offset = (p.bytes.length : Int))
    (hm : p.offset + (it.encode).length ≤ p.maxSize) :
    packItem p it = ⟨[], p.maxSize, p.bytes ++ it.encode, p.offset + (it.encode).length⟩ := by
  cases it with
  | ibyte v =>
    simpa [packItem, Item.encode] using
      PackByte_append p v he hoff (by simpa [Item.encode] using hm)
  | ibool b =>
    simpa [packItem, Item.encode] using
      PackBool_append p b he hoff (by simpa [Item.encode] using hm)
  | ishort v =>
    have h := PackShort_append p v he hoff
      (by simp only [Item.encode, beBytes_length] at hm; omega)
    simp [packItem, Item.encode, beBytes_length, h]
  | iint v =>
    have h := PackInt_append p v he hoff
      (by simp only [Item.encode, beBytes_length] at hm; omega)
    simp [packItem, Item.encode, beBytes_length, h]
  | ilong v =>
    have h := PackLong_append p v he hoff
      (by simp only [Item.encode, beBytes_length] at hm; omega)
    simp [packItem, Item.encode, beBytes_length, h]
  | ifixed bs =>
    simpa [packItem, Item.encode] using
      PackFixedBytes_append p bs he hoff (by simpa [Item.encode] using hm)
  | ibytes bs =>
    simp only [Item.encode, List.length_append, beBytes_length] at hm
    push_cast at hm
    have h := PackBytes_append p bs he hoff (by omega)
    simp only [packItem, h, Item.encode]
    simp only [Packer.mk.injEq, List.length_append, beBytes_length]
    refine ⟨trivial, trivial, trivial, by push_cast; ring⟩
  | istr s =>
    simp only [Item.encode, List.length_append, beBytes_length] at hm
    push_cast at hm
    have h := PackStr_append p s hwf.2 he hoff (by omega)
    simp only [packItem, h, Item.encode]
    simp only [Packer.mk.injEq, List.length_append, beBytes_length]
    refine ⟨trivial, trivial, trivial, by push_cast; ring⟩
  | iip d =>
    simp only [Item.encode, List.length_append, beBytes_length, hwf.1] at hm
    push_cast at hm
    have h := PackIP_append p d hwf he hoff (by omega)
    simp only [packItem, h, Item.encode]
    simp only [Packer.mk.injEq, List.length_append, beBytes_length, hwf.1]
    refine ⟨trivial, trivial, trivial, by push_cast; ring⟩
  | islices sz bss =>
    simp only [Item.encode, List.length_append, beBytes_length] at hm
    push_cast at hm
    have h1 := PackInt_append p bss.length he hoff (by omega)
    have h2 := foldl_PackFixedBytes_append bss
      ⟨[], p.maxSize, p.bytes ++ beBytes 4 bss.length, p.offset + 4⟩ rfl
      (by dsimp only; rw [List.length_append, beBytes_length]; push_cast; omega)
      (by dsimp only; omega)
    simp only [packItem, Packer.PackFixedByteSlices, h1, h2, Item.encode]
    simp only [Packer.mk.injEq, List.length_append, beBytes_length, List.append_assoc]
    refine ⟨trivial, trivial, trivial, by push_cast; ring⟩
  | iips ds =>
    simp only [Item.encode, List.length_append, beBytes_length] at hm
    push_cast at hm
    have h1 := PackInt_append p ds.length he hoff (by omega)
    have h2 := PackIPsLoop_append ds
      ⟨[], p.maxSize, p.bytes ++ beBytes 4 ds.length, p.offset + 4⟩ hwf.2 rfl
      (by dsimp only; rw [List.length_append, beBytes_length]; push_cast; omega)
      (by dsimp only; omega)
    simp only [packItem, Packer.PackIPs, h1, h2, Item.encode]
    simp only [Packer.mk.injEq, List.length_append, beBytes_length, List.append_assoc]
    refine ⟨trivial, trivial, trivial, by push_cast; ring⟩

theorem UnpackBytes_mid (p : Packer) (pre bs suf : List Nat)
    (he : p.errs = []) (hb : p.bytes = pre ++ (beBytes 4 bs.length ++ bs) ++ suf)
    (hoff : p.offset = (pre.length : Int)) (hlt : bs.length < 2 ^ 32) :
    p.UnpackBytes = (bs, { p with offset := p.offset + (4 + bs.length) }) := by
  have h1 := UnpackInt_mid p pre bs.length (bs ++ suf) he
    (by rw [hb]; simp [List.append_assoc]) hoff hlt
  rw [Packer.UnpackBytes, h1]
  have h2 := UnpackFixedBytes_mid { p with offset := p.offset + 4 } (pre ++ beBytes 4 bs.length)
    bs suf he (by rw [hb]; simp [List.append_assoc])
    (by dsimp only; rw [List.length_append, beBytes_length, hoff]; push_cast; ring)
  rw [h2]
  simp only [Prod.mk.injEq, Packer.mk.injEq]
  refine ⟨by trivial, by trivial, by trivial, by trivial, by ring⟩

theorem UnpackStr_mid (p : Packer) (pre s suf : List Nat)
    (he : p.errs = []) (hb : p.bytes = pre ++ (beBytes 2 s.length ++ s) ++ suf)
    (hoff : p.offset = (pre.length : Int)) (hlt : s.length ≤ 65535) :
    p.UnpackStr = (s, { p with offset := p.offset + (2 + s.length) }) := by
  have h1 := UnpackShort_mid p pre s.length (s ++ suf) he
    (by rw [hb]; simp [List.append_assoc]) hoff (by norm_num; omega)
  rw [Packer.UnpackStr, h1]
  have h2 := UnpackFixedBytes_mid { p with offset := p.offset + 2 } (pre ++ beBytes 2 s.length)
    s suf he (by rw [hb]; simp [List.append_assoc])
    (by dsimp only; rw [List.length_append, beBytes_length, hoff]; push_cast; ring)
  rw [h2]
  simp only [Prod.mk.injEq, Packer.mk.injEq]
  refine ⟨by trivial, by trivial, by trivial, by trivial, by ring⟩

theorem UnpackIP_mid (p : Packer) (pre : List Nat) (d : IPDesc) (suf : List Nat)
    (hwf : ipWF d) (he : p.errs = [])
    (hb : p.bytes = pre ++ (d.ip ++ beBytes 2 d.port) ++ suf)
    (hoff : p.offset = (pre.length : Int)) :
    p.UnpackIP = (d, { p with offset := p.offset + 18 }) := by
  have h1 := UnpackFixedBytes_mid p pre d.ip (beBytes 2 d.port ++ suf) he
    (by rw [hb]; simp [List.append_assoc]) hoff
  rw [hwf.1] at h1
  push_cast at h1
  rw [Packer.UnpackIP, h1]
  have h2 := UnpackShort_mid { p with offset := p.offset + 16 } (pre ++ d.ip)
    d.port suf he (by rw [hb]; simp [List.append_assoc])
    (by dsimp only; rw [List.length_append, hwf.1, hoff]; push_cast; ring) hwf.2.2
  rw [h2]
  simp only [Prod.mk.injEq, Packer.mk.injEq, IPDesc.mk.injEq]
  refine ⟨by trivial, by trivial, by trivial, by trivial, by ring⟩

theorem UnpackFBSLoop_mid (sz : Nat) (bss : List (List Nat)) :
    ∀ (p : Packer) (pre suf : List Nat), (∀ b ∈ bss, b.length = sz) → p.errs = [] →
      p.bytes = pre ++ bss.flatten ++ suf → p.offset = (pre.length : Int) →
      UnpackFBSLoop (sz : Int) bss.length p =
        (bss, { p with offset := p.offset + (bss.flatten).length }) := by
  induction bss with
  | nil =>
    intro p pre suf hl he hb hoff
    simp [UnpackFBSLoop]
  | cons b bs ih =>
    intro p pre suf hl he hb hoff
    have hbl : b.length = sz := hl b (by simp)
    rw [List.length_cons]
    rw [UnpackFBSLoop, if_neg (by simp [Errored_eq_false p he])]
    have h1 := UnpackFixedBytes_mid p pre b (bs.flatten ++ suf) he
      (by rw [hb]; simp [List.append_assoc]) hoff
    rw [hbl] at h1
    rw [h1]
    dsimp only
    rw [ih { p with offset := p.offset + sz } (pre ++ b) suf
      (fun x hx => hl x (by simp [hx])) he
      (by rw [hb]; simp [List.append_assoc])
      (by dsimp only; rw [List.length_append, hbl, hoff]; push_cast; ring)]
    simp only [Prod.mk.injEq, Packer.mk.injEq, List.flatten_cons, List.length_append, hbl]
    refine ⟨by trivial, by trivial, by trivial, by trivial, by push_cast; ring⟩

theorem UnpackFixedByteSlices_mid (p : Packer) (sz : Nat) (bss : List (List Nat))
    (pre suf : List Nat) (hl : ∀ b ∈ bss, b.length = sz)
    (hcnt : bss.length < 2 ^ 32) (he : p.errs = [])
    (hb : p.bytes = pre ++ (beBytes 4 bss.length ++ bss.flatten) ++ suf)
    (hoff : p.offset = (pre.length : Int)) :
    p.UnpackFixedByteSlices sz =
      (bss, { p with offset := p.offset + (4 + (bss.flatten).length) }) := by
  have h1 := UnpackInt_mid p pre bss.length (bss.flatten ++ suf) he
    (by rw [hb]; simp [List.append_assoc]) hoff hcnt
  rw [Packer.UnpackFixedByteSlices, h1]
  rw [UnpackFBSLoop_mid sz bss { p with offset := p.offset + 4 } (pre ++ beBytes 4 bss.length)
    suf hl he (by rw [hb]; simp [List.append_assoc])
    (by dsimp only; rw [List.length_append, beBytes_length, hoff]; push_cast; ring)]
  simp only [Prod.mk.injEq, Packer.mk.injEq]
  refine ⟨by trivial, by trivial, by trivial, by trivial, by ring⟩

theorem UnpackIPsLoop_mid (ds : List IPDesc) :
    ∀ (p : Packer) (pre suf : List Nat), (∀ d ∈ ds, ipWF d) → p.errs = [] →
      p.bytes = pre ++ (ds.map (fun d => d.ip ++ beBytes 2 d.port)).flatten ++ suf →
      p.offset = (pre.length : Int) →
      UnpackIPsLoop ds.length p =
        (ds, { p with
          offset := p.offset + ((ds.map (fun d => d.ip ++ beBytes 2 d.port)).flatten).length }) := by
  induction ds with
  | nil =>
    intro p pre suf hwf he hb hoff
    simp [UnpackIPsLoop]
  | cons d ds ih =>
    intro p pre suf hwf he hb hoff
    have hd : ipWF d := hwf d (by simp)
    have hlen : (d.ip ++ beBytes 2 d.port).length = 18 := by
      simp only [List.length_append, beBytes_length, hd.1]
    rw [List.length_cons]
    rw [UnpackIPsLoop, if_neg (by simp [Errored_eq_false p he])]
    have h1 := UnpackIP_mid p pre d
      ((ds.map (fun d => d.ip ++ beBytes 2 d.port)).flatten ++ suf) hd he
      (by rw [hb]; simp [List.append_assoc]) hoff
    rw [h1]
    dsimp only
    rw [ih { p with offset := p.offset + 18 } (pre ++ (d.ip ++ beBytes 2 d.port)) suf
      (fun x hx => hwf x (by simp [hx])) he
      (by rw [hb]; simp [List.append_assoc])
      (by dsimp only; rw [List.length_append, hlen, hoff]; push_cast; ring)]
    simp only [Prod.mk.injEq, Packer.mk.injEq, List.map_cons, List.flatten_cons,
      List.length_append, hlen]
    refine ⟨by trivial, by trivial, by trivial, by trivial, by push_cast; ring⟩

theorem UnpackIPs_mid (p : Packer) (ds : List IPDesc) (pre suf : List Nat)
    (hwf : ∀ d ∈ ds, ipWF d) (hcnt : ds.length < 2 ^ 32) (he : p.errs = [])
    (hb : p.bytes =
      pre ++ (beBytes 4 ds.length ++ (ds.map (fun d => d.ip ++ beBytes 2 d.port)).flatten) ++ suf)
    (hoff : p.offset = (pre.length : Int)) :
    p.UnpackIPs =
      (ds, { p with
        offset := p.offset +
          (4 + ((ds.map (fun d => d.ip ++ beBytes 2 d.port)).flatten).length) }) := by
  have h1 := UnpackInt_mid p pre ds.length
    ((ds.map (fun d => d.ip ++ beBytes 2 d.port)).flatten ++ suf) he
    (by rw [hb]; simp [List.append_assoc]) hoff hcnt
  rw [Packer.UnpackIPs, h1]
  rw [UnpackIPsLoop_mid ds { p with offset := p.offset + 4 } (pre ++ beBytes 4 ds.length)
    suf hwf he (by rw [hb]; simp [List.append_assoc])
    (by dsimp only; rw [List.length_append, beBytes_length, hoff]; push_cast; ring)]
  simp only [Prod.mk.injEq, Packer.mk.injEq]
  refine ⟨by trivial, by trivial, by trivial, by trivial, by ring⟩

theorem encodeAll_cons (it : Item) (its : List Item) :
    encodeAll (it :: its) = it.encode ++ encodeAll its := by
  simp [encodeAll]

theorem unpackItem_mid (it : Item) (p : Packer) (pre suf : List Nat) (hwf : it.wf)
    (he : p.errs = []) (hb : p.bytes = pre ++ it.encode ++ suf)
    (hoff : p.offset = (pre.length : Int)) :
    unpackItem p it = (it, { p with offset := p.offset + (it.encode).length }) := by
  cases it with
  | ibyte v =>
    simp only [Item.encode] at hb ⊢
    have h := UnpackByte_mid p pre v suf he hb hoff
    simp [unpackItem, h]
  | ibool b =>
    simp only [Item.encode] at hb ⊢
    have h := UnpackBool_mid p pre b suf he hb hoff
    simp [unpackItem, h]
  | ishort v =>
    simp only [Item.encode] at hb ⊢
    have h := UnpackShort_mid p pre v suf he hb hoff hwf
    simp [unpackItem, h, beBytes_length]
  | iint v =>
    simp only [Item.encode] at hb ⊢
    have h := UnpackInt_mid p pre v suf he hb hoff hwf
    simp [unpackItem, h, beBytes_length]
  | ilong v =>
    simp only [Item.encode] at hb ⊢
    have h := UnpackLong_mid p pre v suf he hb hoff hwf
    simp [unpackItem, h, beBytes_length]
  | ibytes bs =>
    simp only [Item.encode] at hb ⊢
    have h := UnpackBytes_mid p pre bs suf he hb hoff hwf.2
    simp only [unpackItem, h, Prod.mk.injEq, Packer.mk.injEq, List.length_append,
      beBytes_length]
    refine ⟨by trivial, by trivial, by trivial, by trivial, by push_cast; ring⟩
  | ifixed bs =>
    simp only [Item.encode] at hb ⊢
    have h := UnpackFixedBytes_mid p pre bs suf he hb hoff
    simp [unpackItem, h]
  | islices sz bss =>
    simp only [Item.encode] at hb ⊢
    have h := UnpackFixedByteSlices_mid p sz bss pre suf
      (fun b hbm => (hwf.2 b hbm).2) hwf.1 he hb hoff
    simp only [unpackItem, h, Prod.mk.injEq, Packer.mk.injEq, List.length_append,
      beBytes_length]
    refine ⟨by trivial, by trivial, by trivial, by trivial, by push_cast; ring⟩
  | istr s =>
    simp only [Item.encode] at hb ⊢
    have h := UnpackStr_mid p pre s suf he hb hoff hwf.2
    simp only [unpackItem, h, Prod.mk.injEq, Packer.mk.injEq, List.length_append,
      beBytes_length]
    refine ⟨by trivial, by trivial, by trivial, by trivial, by push_cast; ring⟩
  | iip d =>
    simp only [Item.encode] at hb ⊢
    have h := UnpackIP_mid p pre d suf hwf he hb hoff
    simp only [unpackItem, h, Prod.mk.injEq, Packer.mk.injEq, List.length_append,
      beBytes_length, hwf.1]
    refine ⟨by trivial, by trivial, by trivial, by trivial, by push_cast; ring⟩
  | iips ds =>
    simp only [Item.encode] at hb ⊢
    have h := UnpackIPs_mid p ds pre suf hwf.2 hwf.1 he hb hoff
    simp only [unpackItem, h, Prod.mk.injEq, Packer.mk.injEq, List.length_append,
      beBytes_length]
    refine ⟨by trivial, by trivial, by trivial, by trivial, by push_cast; ring⟩

theorem packItems_append (items : List Item) :
    ∀ p : Packer, (∀ it ∈ items, it.wf) → p.errs = [] →
      p.offset = (p.bytes.length : Int) →
      p.offset + (encodeAll items).length ≤ p.maxSize →
      packItems p items =
        ⟨[], p.maxSize, p.bytes ++ encodeAll items, p.offset + (encodeAll items).length⟩ := by
  induction items with
  | nil =>
    intro p hwf he hoff hm
    obtain ⟨e, m, b, o⟩ := p
    simp_all [packItems, encodeAll]
  | cons it its ih =>
    intro p hwf he hoff hm
    rw [encodeAll_cons, List.length_append] at hm
    push_cast at hm
    rw [packItems, List.foldl_cons]
    rw [packItem_append it p (hwf it (by simp)) he hoff (by omega)]
    have h2 := ih ⟨[], p.maxSize, p.bytes ++ it.encode, p.offset + (it.encode).length⟩
      (fun x hx => hwf x (by simp [hx])) rfl
      (by dsimp only; rw [List.length_append]; push_cast; omega)
      (by dsimp only; omega)
    rw [packItems] at h2
    rw [h2, encodeAll_cons]
    simp only [Packer.mk.injEq, List.length_append, List.append_assoc]
    refine ⟨by trivial, by trivial, by trivial, by push_cast; ring⟩

theorem unpackItems_mid (items : List Item) :
    ∀ (p : Packer) (pre suf : List Nat), (∀ it ∈ items, it.wf) → p.errs = [] →
      p.bytes = pre ++ encodeAll items ++ suf → p.offset = (pre.length : Int) →
      unpackItems p items =
        (items, { p with offset := p.offset + (encodeAll items).length }) := by
  induction items with
  | nil =>
    intro p pre suf hwf he hb hoff
    simp [unpackItems, encodeAll]
  | cons it its ih =>
    intro p pre suf hwf he hb hoff
    rw [encodeAll_cons] at hb
    rw [unpackItems]
    rw [unpackItem_mid it p pre (encodeAll its ++ suf) (hwf it (by simp)) he
      (by rw [hb]; simp [List.append_assoc]) hoff]
    dsimp only
    rw [ih { p with offset := p.offset + (it.encode).length } (pre ++ it.encode) suf
      (fun x hx => hwf x (by simp [hx])) he
      (by rw [hb]; simp [List.append_assoc])
      (by dsimp only; rw [List.length_append, hoff]; push_cast; ring)]
    simp only [Prod.mk.injEq, Packer.mk.injEq, encodeAll_cons, List.length_append]
    refine ⟨by trivial, by trivial, by trivial, by trivial, by push_cast; ring⟩

/-- A packer set up to read an existing byte buffer, as wrappers.Packer
constructed with a Bytes field and zero offset. -/
def bytesPacker (m : Int) (bs : List Nat) : Packer :=
  ⟨[], m, bs, 0⟩

/-- C1: for every typed Packer operation and every value in its domain,
packing into a fresh packer of sufficient max size and unpacking the
produced bytes in the same order yields the values back, with no error
accumulated after either phase, and the final offset on both sides equals
the total encoded length.  Single operations are the singleton case. -/
theorem packer_roundtrip_and_sequencing (items : List Item) (m : Int)
    (hwf : ∀ it ∈ items, it.wf) (hm : ((encodeAll items).length : Int) ≤ m) :
    packItems (freshPacker m) items =
      ⟨[], m, encodeAll items, ((encodeAll items).length : Int)⟩ ∧
    unpackItems (bytesPacker m (encodeAll items)) items =
      (items, ⟨[], m, encodeAll items, ((encodeAll items).length : Int)⟩) := by
  constructor
  · have h := packItems_append items (freshPacker m) hwf rfl rfl
      (by simp only [freshPacker]; simpa using hm)
    simpa [freshPacker] using h
  · have h := unpackItems_mid items (bytesPacker m (encodeAll items)) [] [] hwf rfl
      (by simp [bytesPacker]) rfl
    simpa [bytesPacker] using h

/-- Witness for C1 at a concrete sequence covering every typed operation. -/
theorem packer_roundtrip_and_sequencing_witness :
    (∀ it ∈ ([Item.ibyte 7, Item.ibool true, Item.ishort 4660,
        Item.iint 3735928559, Item.ilong 81985529216486895, Item.ibytes [1, 2, 3],
        Item.ifixed [9, 8], Item.islices 2 [[1, 2], [3, 4]], Item.istr [111, 107],
        Item.iip ⟨[0, 0, 0, 0, 0, 0, 0, 0, 0, 0, 255, 255, 1, 2, 3, 4], 5678⟩,
        Item.iips [⟨[1, 2, 3, 4, 5, 6, 7, 8, 9, 10, 11, 12, 13, 14, 15, 16], 80⟩]] :
        List Item), it.wf) ∧
    (packItems (freshPacker 200) [Item.ibyte 7, Item.ibool true, Item.ishort 4660,
        Item.iint 3735928559, Item.ilong 81985529216486895, Item.ibytes [1, 2, 3],
        Item.ifixed [9, 8], Item.islices 2 [[1, 2], [3, 4]], Item.istr [111, 107],
        Item.iip ⟨[0, 0, 0, 0, 0, 0, 0, 0, 0, 0, 255, 255, 1, 2, 3, 4], 5678⟩,
        Item.iips [⟨[1, 2, 3, 4, 5, 6, 7, 8, 9, 10, 11, 12, 13, 14, 15, 16], 80⟩]] =
      ⟨[], 200,
        encodeAll [Item.ibyte 7, Item.ibool true, Item.ishort 4660,
          Item.iint 3735928559, Item.ilong 81985529216486895, Item.ibytes [1, 2, 3],
          Item.ifixed [9, 8], Item.islices 2 [[1, 2], [3, 4]], Item.istr [111, 107],
          Item.iip ⟨[0, 0, 0, 0, 0, 0, 0, 0, 0, 0, 255, 255, 1, 2, 3, 4], 5678⟩,
          Item.iips [⟨[1, 2, 3, 4, 5, 6, 7, 8, 9, 10, 11, 12, 13, 14, 15, 16], 80⟩]],
        ((encodeAll [Item.ibyte 7, Item.ibool true, Item.ishort 4660,
          Item.iint 3735928559, Item.ilong 81985529216486895, Item.ibytes [1, 2, 3],
          Item.ifixed [9, 8], Item.islices 2 [[1, 2], [3, 4]], Item.istr [111, 107],
          Item.iip ⟨[0, 0, 0, 0, 0, 0, 0, 0, 0, 0, 255, 255, 1, 2, 3, 4], 5678⟩,
          Item.iips [⟨[1, 2, 3, 4, 5, 6, 7, 8, 9, 10, 11, 12, 13, 14, 15, 16], 80⟩]]).length :
          Int)⟩ ∧
      unpackItems (bytesPacker 200
        (encodeAll [Item.ibyte 7, Item.ibool true, Item.ishort 4660,
          Item.iint 3735928559, Item.ilong 81985529216486895, Item.ibytes [1, 2, 3],
          Item.ifixed [9, 8], Item.islices 2 [[1, 2], [3, 4]], Item.istr [111, 107],
          Item.iip ⟨[0, 0, 0, 0, 0, 0, 0, 0, 0, 0, 255, 255, 1, 2, 3, 4], 5678⟩,
          Item.iips [⟨[1, 2, 3, 4, 5, 6, 7, 8, 9, 10, 11, 12, 13, 14, 15, 16], 80⟩]]))
        [Item.ibyte 7, Item.ibool true, Item.ishort 4660,
          Item.iint 3735928559, Item.ilong 81985529216486895, Item.ibytes [1, 2, 3],
          Item.ifixed [9, 8], Item.islices 2 [[1, 2], [3, 4]], Item.istr [111, 107],
          Item.iip ⟨[0, 0, 0, 0, 0, 0, 0, 0, 0, 0, 255, 255, 1, 2, 3, 4], 5678⟩,
          Item.iips [⟨[1, 2, 3, 4, 5, 6, 7, 8, 9, 10, 11, 12, 13, 14, 15, 16], 80⟩]] =
      ([Item.ibyte 7, Item.ibool true, Item.ishort 4660,
          Item.iint 3735928559, Item.ilong 81985529216486895, Item.ibytes [1, 2, 3],
          Item.ifixed [9, 8], Item.islices 2 [[1, 2], [3, 4]], Item.istr [111, 107],
          Item.iip ⟨[0, 0, 0, 0, 0, 0, 0, 0, 0, 0, 255, 255, 1, 2, 3, 4], 5678⟩,
          Item.iips [⟨[1, 2, 3, 4, 5, 6, 7, 8, 9, 10, 11, 12, 13, 14, 15, 16], 80⟩]],
        ⟨[], 200,
          encodeAll [Item.ibyte 7, Item.ibool true, Item.ishort 4660,
            Item.iint 3735928559, Item.ilong 81985529216486895, Item.ibytes [1, 2, 3],
            Item.ifixed [9, 8], Item.islices 2 [[1, 2], [3, 4]], Item.istr [111, 107],
            Item.iip ⟨[0, 0, 0, 0, 0, 0, 0, 0, 0, 0, 255, 255, 1, 2, 3, 4], 5678⟩,
            Item.iips [⟨[1, 2, 3, 4, 5, 6, 7, 8, 9, 10, 11, 12, 13, 14, 15, 16], 80⟩]],
          ((encodeAll [Item.ibyte 7, Item.ibool true, Item.ishort 4660,
            Item.iint 3735928559, Item.ilong 81985529216486895, Item.ibytes [1, 2, 3],
            Item.ifixed [9, 8], Item.islices 2 [[1, 2], [3, 4]], Item.istr [111, 107],
            Item.iip ⟨[0, 0, 0, 0, 0, 0, 0, 0, 0, 0, 255, 255, 1, 2, 3, 4], 5678⟩,
            Item.iips [⟨[1, 2, 3, 4, 5, 6, 7, 8, 9, 10, 11, 12, 13, 14, 15, 16],
              80⟩]]).length : Int)⟩)) :=
  ⟨by decide, packer_roundtrip_and_sequencing _ 200 (by decide) (by decide)⟩

theorem Add_errored (p : Packer) (e : PackErr) : (p.Add e).Errored = true := by
  simp [Packer.Add, Packer.Errored]

theorem Add_preserve (p : Packer) (e : PackErr) :
    (p.Add e).bytes = p.bytes ∧ (p.Add e).offset = p.offset ∧
      (p.Add e).maxSize = p.maxSize := by
  simp [Packer.Add]

theorem CheckSpace_noop (p : Packer) (n : Int) (he : p.Errored = true) :
    (p.CheckSpace n).bytes = p.bytes ∧ (p.CheckSpace n).offset = p.offset ∧
      (p.CheckSpace n).Errored = true :=
  ⟨(CheckSpace_preserve p n).1, (CheckSpace_preserve p n).2.1, CheckSpace_errored p n he⟩

theorem Expand_noop (p : Packer) (n : Int) (he : p.Errored = true) :
    (p.Expand n).bytes = p.bytes ∧ (p.Expand n).offset = p.offset ∧
      (p.Expand n).Errored = true := by
  rw [Expand_errored_eq p n he]
  exact CheckSpace_noop p 0 he

theorem PackByte_noop (p : Packer) (v : Nat) (he : p.Errored = true) :
    (p.PackByte v).bytes = p.bytes ∧ (p.PackByte v).offset = p.offset ∧
      (p.PackByte v).Errored = true := by
  obtain ⟨hb, ho, hx⟩ := Expand_noop p 1 he
  rw [Packer.PackByte]
  simp [hx, hb, ho]

theorem PackShort_noop (p : Packer) (v : Nat) (he : p.Errored = true) :
    (p.PackShort v).bytes = p.bytes ∧ (p.PackShort v).offset = p.offset ∧
      (p.PackShort v).Errored = true := by
  obtain ⟨hb, ho, hx⟩ := Expand_noop p 2 he
  rw [Packer.PackShort]
  simp [hx, hb, ho]

theorem PackInt_noop (p : Packer) (v : Nat) (he : p.Errored = true) :
    (p.PackInt v).bytes = p.bytes ∧ (p.PackInt v).offset = p.offset ∧
      (p.PackInt v).Errored = true := by
  obtain ⟨hb, ho, hx⟩ := Expand_noop p 4 he
  rw [Packer.PackInt]
  simp [hx, hb, ho]

theorem PackLong_noop (p : Packer) (v : Nat) (he : p.Errored = true) :
    (p.PackLong v).bytes = p.bytes ∧ (p.PackLong v).offset = p.offset ∧
      (p.PackLong v).Errored = true := by
  obtain ⟨hb, ho, hx⟩ := Expand_noop p 8 he
  rw [Packer.PackLong]
  simp [hx, hb, ho]

theorem PackBool_noop (p : Packer) (b : Bool) (he : p.Errored = true) :
    (p.PackBool b).bytes = p.bytes ∧ (p.PackBool b).offset = p.offset ∧
      (p.PackBool b).Errored = true := by
  cases b <;> simp [Packer.PackBool] <;> exact PackByte_noop p _ he

theorem PackFixedBytes_noop (p : Packer) (bs : List Nat) (he : p.Errored = true) :
    (p.PackFixedBytes bs).bytes = p.bytes ∧ (p.PackFixedBytes bs).offset = p.offset ∧
      (p.PackFixedBytes bs).Errored = true := by
  obtain ⟨hb, ho, hx⟩ := Expand_noop p bs.length he
  rw [Packer.PackFixedBytes]
  simp [hx, hb, ho]

theorem PackBytes_noop (p : Packer) (bs : List Nat) (he : p.Errored = true) :
    (p.PackBytes bs).bytes = p.bytes ∧ (p.PackBytes bs).offset = p.offset ∧
      (p.PackBytes bs).Errored = true := by
  obtain ⟨h1b, h1o, h1e⟩ := PackInt_noop p bs.length he
  obtain ⟨h2b, h2o, h2e⟩ := PackFixedBytes_noop (p.PackInt bs.length) bs h1e
  exact ⟨by rw [Packer.PackBytes, h2b, h1b], by rw [Packer.PackBytes, h2o, h1o],
    by rw [Packer.PackBytes]; exact h2e⟩

theorem PackStr_noop (p : Packer) (s : List Nat) (he : p.Errored = true) :
    (p.PackStr s).bytes = p.bytes ∧ (p.PackStr s).offset = p.offset ∧
      (p.PackStr s).Errored = true := by
  rw [Packer.PackStr]
  by_cases hs : 65535 < s.length
  · rw [if_pos hs]
    obtain ⟨h1b, h1o, h1e⟩ := PackShort_noop (p.Add .invalidInput) s.length
      (Add_errored p .invalidInput)
    obtain ⟨h2b, h2o, h2e⟩ := PackFixedBytes_noop _ s h1e
    obtain ⟨hab, hao, ham⟩ := Add_preserve p .invalidInput
    exact ⟨by rw [h2b, h1b, hab], by rw [h2o, h1o, hao], h2e⟩
  · rw [if_neg hs]
    obtain ⟨h1b, h1o, h1e⟩ := PackShort_noop p s.length he
    obtain ⟨h2b, h2o, h2e⟩ := PackFixedBytes_noop _ s h1e
    exact ⟨by rw [h2b, h1b], by rw [h2o, h1o], h2e⟩

theorem foldl_PackFixedBytes_noop (bss : List (List Nat)) :
    ∀ p : Packer, p.Errored = true →
      (bss.foldl Packer.PackFixedBytes p).bytes = p.bytes ∧
      (bss.foldl Packer.PackFixedBytes p).offset = p.offset ∧
      (bss.foldl Packer.PackFixedBytes p).Errored = true := by
  induction bss with
  | nil => intro p he; exact ⟨rfl, rfl, he⟩
  | cons b bs ih =>
    intro p he
    obtain ⟨h1b, h1o, h1e⟩ := PackFixedBytes_noop p b he
    obtain ⟨h2b, h2o, h2e⟩ := ih (p.PackFixedBytes b) h1e
    exact ⟨by rw [List.foldl_cons, h2b, h1b], by rw [List.foldl_cons, h2o, h1o],
      by rw [List.foldl_cons]; exact h2e⟩

theorem PackFixedByteSlices_noop (p : Packer) (bss : List (List Nat))
    (he : p.Errored = true) :
    (p.PackFixedByteSlices bss).bytes = p.bytes ∧
    (p.PackFixedByteSlices bss).offset = p.offset ∧
    (p.PackFixedByteSlices bss).Errored = true := by
  obtain ⟨h1b, h1o, h1e⟩ := PackInt_noop p bss.length he
  obtain ⟨h2b, h2o, h2e⟩ := foldl_PackFixedBytes_noop bss (p.PackInt bss.length) h1e
  exact ⟨by rw [Packer.PackFixedByteSlices, h2b, h1b],
    by rw [Packer.PackFixedByteSlices, h2o, h1o],
    by rw [Packer.PackFixedByteSlices]; exact h2e⟩

theorem PackIPsLoop_errored (ds : List IPDesc) (p : Packer) (he : p.Errored = true) :
    PackIPsLoop p ds = p := by
  cases ds with
  | nil => rfl
  | cons d ds => rw [PackIPsLoop, if_pos he]

theorem PackIPs_noop (p : Packer) (ds : List IPDesc) (he : p.Errored = true) :
    (p.PackIPs ds).bytes = p.bytes ∧ (p.PackIPs ds).offset = p.offset ∧
      (p.PackIPs ds).Errored = true := by
  obtain ⟨h1b, h1o, h1e⟩ := PackInt_noop p ds.length he
  rw [Packer.PackIPs, PackIPsLoop_errored ds _ h1e]
  exact ⟨h1b, h1o, h1e⟩

theorem PackIP_noop (p : Packer) (d : IPDesc) (he : p.Errored = true) :
    (p.PackIP d).bytes = p.bytes ∧ (p.PackIP d).offset = p.offset ∧
      (p.PackIP d).Errored = true := by
  obtain ⟨h1b, h1o, h1e⟩ := PackFixedBytes_noop p (to16 d.ip) he
  obtain ⟨h2b, h2o, h2e⟩ := PackShort_noop _ d.port h1e
  exact ⟨by rw [Packer.PackIP, h2b, h1b], by rw [Packer.PackIP, h2o, h1o],
    by rw [Packer.PackIP]; exact h2e⟩

theorem UnpackByte_zero (p : Packer) (he : p.Errored = true) :
    p.UnpackByte = (0, p.CheckSpace 1) := by
  rw [Packer.UnpackByte]
  simp [CheckSpace_errored p 1 he]

theorem UnpackShort_zero (p : Packer) (he : p.Errored = true) :
    p.UnpackShort = (0, p.CheckSpace 2) := by
  rw [Packer.UnpackShort]
  simp [CheckSpace_errored p 2 he]

theorem UnpackInt_zero (p : Packer) (he : p.Errored = true) :
    p.UnpackInt = (0, p.CheckSpace 4) := by
  rw [Packer.UnpackInt]
  simp [CheckSpace_errored p 4 he]

theorem UnpackLong_zero (p : Packer) (he : p.Errored = true) :
    p.UnpackLong = (0, p.CheckSpace 8) := by
  rw [Packer.UnpackLong]
  simp [CheckSpace_errored p 8 he]

theorem UnpackBool_zero (p : Packer) (he : p.Errored = true) :
    p.UnpackBool = (false, p.CheckSpace 1) := by
  rw [Packer.UnpackBool, UnpackByte_zero p he]
  simp

theorem UnpackFixedBytes_zero (p : Packer) (size : Int) (he : p.Errored = true) :
    p.UnpackFixedBytes size = ([], p.CheckSpace size) := by
  rw [Packer.UnpackFixedBytes]
  simp [CheckSpace_errored p size he]

theorem UnpackBytes_zero (p : Packer) (he : p.Errored = true) :
    (p.UnpackBytes).1 = [] ∧ (p.UnpackBytes).2.offset = p.offset ∧
      (p.UnpackBytes).2.bytes = p.bytes ∧ (p.UnpackBytes).2.Errored = true := by
  obtain ⟨h1b, h1o, h1e⟩ := CheckSpace_noop p 4 he
  rw [Packer.UnpackBytes, UnpackInt_zero p he]
  rw [UnpackFixedBytes_zero _ _ h1e]
  obtain ⟨h2b, h2o, h2e⟩ := CheckSpace_noop (p.CheckSpace 4) 0 h1e
  exact ⟨rfl, by simpa [h1o] using h2o, by simpa [h1b] using h2b, h2e⟩

theorem UnpackStr_zero (p : Packer) (he : p.Errored = true) :
    (p.UnpackStr).1 = [] ∧ (p.UnpackStr).2.offset = p.offset ∧
      (p.UnpackStr).2.bytes = p.bytes ∧ (p.UnpackStr).2.Errored = true := by
  obtain ⟨h1b, h1o, h1e⟩ := CheckSpace_noop p 2 he
  rw [Packer.UnpackStr, UnpackShort_zero p he]
  rw [UnpackFixedBytes_zero _ _ h1e]
  obtain ⟨h2b, h2o, h2e⟩ := CheckSpace_noop (p.CheckSpace 2) 0 h1e
  exact ⟨rfl, by simpa [h1o] using h2o, by simpa [h1b] using h2b, h2e⟩

theorem UnpackFBSLoop_errored (size : Int) (k : Nat) (p : Packer)
    (he : p.Errored = true) : UnpackFBSLoop size k p = ([], p) := by
  cases k with
  | zero => rfl
  | succ k => rw [UnpackFBSLoop, if_pos he]

theorem UnpackFixedByteSlices_zero (p : Packer) (size : Int) (he : p.Errored = true) :
    p.UnpackFixedByteSlices size = ([], p.CheckSpace 4) := by
  obtain ⟨h1b, h1o, h1e⟩ := CheckSpace_noop p 4 he
  rw [Packer.UnpackFixedByteSlices, UnpackInt_zero p he]
  exact UnpackFBSLoop_errored size 0 _ h1e

theorem UnpackIP_zero (p : Packer) (he : p.Errored = true) :
    (p.UnpackIP).1 = ⟨[], 0⟩ ∧ (p.UnpackIP).2.offset = p.offset ∧
      (p.UnpackIP).2.bytes = p.bytes ∧ (p.UnpackIP).2.Errored = true := by
  obtain ⟨h1b, h1o, h1e⟩ := CheckSpace_noop p 16 he
  rw [Packer.UnpackIP, UnpackFixedBytes_zero p 16 he]
  rw [UnpackShort_zero _ h1e]
  obtain ⟨h2b, h2o, h2e⟩ := CheckSpace_noop (p.CheckSpace 16) 2 h1e
  exact ⟨rfl, by simpa [h1o] using h2o, by simpa [h1b] using h2b, h2e⟩

theorem UnpackIPsLoop_errored (k : Nat) (p : Packer) (he : p.Errored = true) :
    UnpackIPsLoop k p = ([], p) := by
  cases k with
  | zero => rfl
  | succ k => rw [UnpackIPsLoop, if_pos he]

theorem UnpackIPs_zero (p : Packer) (he : p.Errored = true) :
    p.UnpackIPs = ([], p.CheckSpace 4) := by
  obtain ⟨h1b, h1o, h1e⟩ := CheckSpace_noop p 4 he
  rw [Packer.UnpackIPs, UnpackInt_zero p he]
  exact UnpackIPsLoop_errored 0 _ h1e

/-- C2: once a Packer has accumulated an error, every pack operation
leaves Bytes and Offset unchanged, and every unpack operation returns the
zero value of its type while leaving Offset unchanged. -/
theorem packer_errored_noop (p : Packer) (it : Item) (he : p.Errored = true) :
    ((packItem p it).bytes = p.bytes ∧ (packItem p it).offset = p.offset) ∧
    ((unpackItem p it).1 = zeroOf it ∧ (unpackItem p it).2.offset = p.offset) := by
  cases it with
  | ibyte v =>
    obtain ⟨hb, ho, _⟩ := PackByte_noop p v he
    refine ⟨⟨hb, ho⟩, ?_⟩
    rw [unpackItem, UnpackByte_zero p he]
    exact ⟨rfl, (CheckSpace_preserve p 1).2.1⟩
  | ibool b =>
    obtain ⟨hb, ho, _⟩ := PackBool_noop p b he
    refine ⟨⟨hb, ho⟩, ?_⟩
    rw [unpackItem, UnpackBool_zero p he]
    exact ⟨rfl, (CheckSpace_preserve p 1).2.1⟩
  | ishort v =>
    obtain ⟨hb, ho, _⟩ := PackShort_noop p v he
    refine ⟨⟨hb, ho⟩, ?_⟩
    rw [unpackItem, UnpackShort_zero p he]
    exact ⟨rfl, (CheckSpace_preserve p 2).2.1⟩
  | iint v =>
    obtain ⟨hb, ho, _⟩ := PackInt_noop p v he
    refine ⟨⟨hb, ho⟩, ?_⟩
    rw [unpackItem, UnpackInt_zero p he]
    exact ⟨rfl, (CheckSpace_preserve p 4).2.1⟩
  | ilong v =>
    obtain ⟨hb, ho, _⟩ := PackLong_noop p v he
    refine ⟨⟨hb, ho⟩, ?_⟩
    rw [unpackItem, UnpackLong_zero p he]
    exact ⟨rfl, (CheckSpace_preserve p 8).2.1⟩
  | ibytes bs =>
    obtain ⟨hb, ho, _⟩ := PackBytes_noop p bs he
    obtain ⟨hu1, hu2, _, _⟩ := UnpackBytes_zero p he
    exact ⟨⟨hb, ho⟩, by rw [unpackItem]; exact ⟨by rw [zeroOf, hu1], hu2⟩⟩
  | ifixed bs =>
    obtain ⟨hb, ho, _⟩ := PackFixedBytes_noop p bs he
    refine ⟨⟨hb, ho⟩, ?_⟩
    rw [unpackItem, UnpackFixedBytes_zero p bs.length he]
    exact ⟨rfl, (CheckSpace_preserve p bs.length).2.1⟩
  | islices sz bss =>
    obtain ⟨hb, ho, _⟩ := PackFixedByteSlices_noop p bss he
    refine ⟨⟨hb, ho⟩, ?_⟩
    rw [unpackItem, UnpackFixedByteSlices_zero p sz he]
    exact ⟨rfl, (CheckSpace_preserve p 4).2.1⟩
  | istr s =>
    obtain ⟨hb, ho, _⟩ := PackStr_noop p s he
    obtain ⟨hu1, hu2, _, _⟩ := UnpackStr_zero p he
    exact ⟨⟨hb, ho⟩, by rw [unpackItem]; exact ⟨by rw [zeroOf, hu1], hu2⟩⟩
  | iip d =>
    obtain ⟨hb, ho, _⟩ := PackIP_noop p d he
    obtain ⟨hu1, hu2, _, _⟩ := UnpackIP_zero p he
    exact ⟨⟨hb, ho⟩, by rw [unpackItem]; exact ⟨by rw [zeroOf, hu1], hu2⟩⟩
  | iips ds =>
    obtain ⟨hb, ho, _⟩ := PackIPs_noop p ds he
    refine ⟨⟨hb, ho⟩, ?_⟩
    rw [unpackItem, UnpackIPs_zero p he]
    exact ⟨rfl, (CheckSpace_preserve p 4).2.1⟩

/-- Witness for C2 on a concrete errored packer and a concrete operation. -/
theorem packer_errored_noop_witness :
    (Packer.mk [PackErr.badLength] 10 [5, 6] 1).Errored = true ∧
    ((packItem ⟨[PackErr.badLength], 10, [5, 6], 1⟩ (Item.ibytes [1, 2])).bytes = [5, 6] ∧
      (packItem ⟨[PackErr.badLength], 10, [5, 6], 1⟩ (Item.ibytes [1, 2])).offset = 1) ∧
    ((unpackItem ⟨[PackErr.badLength], 10, [5, 6], 1⟩ (Item.ibytes [1, 2])).1 =
        zeroOf (Item.ibytes [1, 2]) ∧
      (unpackItem ⟨[PackErr.badLength], 10, [5, 6], 1⟩ (Item.ibytes [1, 2])).2.offset = 1) := by
  refine ⟨by decide, ?_⟩
  exact packer_errored_noop ⟨[PackErr.badLength], 10, [5, 6], 1⟩ (Item.ibytes [1, 2]) (by decide)

/-- C3 counterexample: take the packer with errs = [badBool], MaxSize = 4,
Bytes = [] and Offset = 0, which satisfies 0 ≤ Offset ≤ len(Bytes) ≤ MaxSize.
With n = 1 we have Offset + n > len(Bytes) and Offset + n ≤ MaxSize, so the
claim demands that Expand grow the logical length to exactly Offset + n = 1;
the code returns without growing because the packer is already errored. -/
theorem expand_trichotomy_counterexample :
    (Packer.Expand ⟨[PackErr.badBool], 4, [], 0⟩ 1).bytes = [] ∧
    ¬ (((Packer.Expand ⟨[PackErr.badBool], 4, [], 0⟩ 1).bytes.length : Int) = 0 + 1) := by
  decide

/-- C3 amended: for every Packer with 0 ≤ Offset ≤ len(Bytes) ≤ MaxSize and
n ≥ 0, if no error has been accumulated then Expand(n) follows the claimed
trichotomy (no-op when Offset + n ≤ len(Bytes); BadLength recorded and Bytes
unchanged when Offset + n > MaxSize; otherwise the logical length grows to
exactly Offset + n); if an error has already been accumulated, Expand leaves
Bytes unchanged instead of growing; and in every case, errored or not, the
logical length never shrinks and never exceeds MaxSize. -/
theorem expand_trichotomy_amended (p : Packer) (n : Int)
    (h0 : 0 ≤ p.offset) (h1 : p.offset ≤ (p.bytes.length : Int))
    (h2 : (p.bytes.length : Int) ≤ p.maxSize) (_hn : 0 ≤ n) :
    (p.errs = [] →
      (p.offset + n ≤ (p.bytes.length : Int) → p.Expand n = p) ∧
      (p.maxSize < p.offset + n →
        (p.Expand n).bytes = p.bytes ∧ PackErr.badLength ∈ (p.Expand n).errs) ∧
      ((p.bytes.length : Int) < p.offset + n → p.offset + n ≤ p.maxSize →
        ((p.Expand n).bytes.length : Int) = p.offset + n)) ∧
    (p.errs ≠ [] → (p.Expand n).bytes = p.bytes) ∧
    (p.bytes.length ≤ (p.Expand n).bytes.length ∧
      ((p.Expand n).bytes.length : Int) ≤ p.maxSize) := by
  have hcs : p.CheckSpace 0 = p := CheckSpace_pass p 0 h0 le_rfl (by omega)
  refine ⟨?_, ?_, ?_⟩
  · intro he
    rw [Packer.Expand]
    simp only [hcs, Errored_eq_false p he, Bool.false_eq_true, if_false]
    refine ⟨fun hc => by rw [if_pos (by omega)], fun hc => ?_, fun hc1 hc2 => ?_⟩
    · rw [if_neg (by omega), if_pos (by omega)]
      exact ⟨rfl, by simp [Packer.Add, he]⟩
    · rw [if_neg (by omega), if_neg (by omega)]
      simp only [List.length_append, List.length_replicate]
      push_cast
      omega
  · intro hne
    rw [Expand_errored_eq p n (Errored_ne p hne), hcs]
  · by_cases he : p.Errored = true
    · rw [Expand_errored_eq p n he, hcs]
      omega
    · have he2 : p.errs = [] := by
        revert he
        simp [Packer.Errored]
      rw [Packer.Expand]
      simp only [hcs, Errored_eq_false p he2, Bool.false_eq_true, if_false]
      split_ifs with hA hB
      · omega
      · simp only [Packer.Add]
        omega
      · simp only [List.length_append, List.length_replicate]
        push_cast
        omega

/-- Witness for the amended C3: the error-free packer with Bytes = [1,2,3]
and Offset = 1 exercises the trichotomy and the bounds at n = 5, and the
errored packer with errs = [badBool] and Bytes = [9] exercises the
errored-case clause: its Bytes are left unchanged. -/
theorem expand_trichotomy_amended_witness :
    ((0 : Int) ≤ 1 ∧ (1 : Int) ≤ 3 ∧ (3 : Int) ≤ 10 ∧ (0 : Int) ≤ 5) ∧
    (((Packer.mk [] 10 [1, 2, 3] 1).errs = [] →
      ((1 : Int) + 5 ≤ 3 → Packer.Expand ⟨[], 10, [1, 2, 3], 1⟩ 5 = ⟨[], 10, [1, 2, 3], 1⟩) ∧
      ((10 : Int) < 1 + 5 →
        (Packer.Expand ⟨[], 10, [1, 2, 3], 1⟩ 5).bytes = [1, 2, 3] ∧
          PackErr.badLength ∈ (Packer.Expand ⟨[], 10, [1, 2, 3], 1⟩ 5).errs) ∧
      ((3 : Int) < 1 + 5 → (1 : Int) + 5 ≤ 10 →
        (((Packer.Expand ⟨[], 10, [1, 2, 3], 1⟩ 5).bytes.length : Int) = 1 + 5))) ∧
    ((Packer.mk [] 10 [1, 2, 3] 1).errs ≠ [] →
      (Packer.Expand ⟨[], 10, [1, 2, 3], 1⟩ 5).bytes = [1, 2, 3]) ∧
    ((3 : Nat) ≤ (Packer.Expand ⟨[], 10, [1, 2, 3], 1⟩ 5).bytes.length ∧
      (((Packer.Expand ⟨[], 10, [1, 2, 3], 1⟩ 5).bytes.length : Int) ≤ 10))) ∧
    ((Packer.mk [PackErr.badBool] 10 [9] 0).errs ≠ [] ∧
      (Packer.Expand ⟨[PackErr.badBool], 10, [9], 0⟩ 5).bytes = [9]) := by
  refine ⟨by norm_num, ?_, by decide, ?_⟩
  · have h := expand_trichotomy_amended ⟨[], 10, [1, 2, 3], 1⟩ 5
      (by norm_num) (by norm_num) (by norm_num) (by norm_num)
    simpa using h
  · exact (expand_trichotomy_amended ⟨[PackErr.badBool], 10, [9], 0⟩ 5
      (by norm_num) (by norm_num) (by norm_num) (by norm_num)).2.1 (by decide)

/-- C4 counterexample: on the error-free packer with Bytes = [2] and
Offset = 0, UnpackBool reads the byte 2, records BadBool, and leaves
Offset = 1: the failing operation advanced the offset. -/
theorem offset_on_failure_counterexample :
    (Packer.UnpackBool ⟨[], 4, [2], 0⟩).2.errs = [PackErr.badBool] ∧
    (Packer.UnpackBool ⟨[], 4, [2], 0⟩).2.offset = 1 ∧
    ¬ ((Packer.UnpackBool ⟨[], 4, [2], 0⟩).2.offset = 0) := by
  decide

theorem PackByte_fail_offset (p : Packer) (v : Nat)
    (hne : (p.PackByte v).Errored = true) : (p.PackByte v).offset = p.offset := by
  rw [Packer.PackByte] at hne ⊢
  by_cases hQ : (p.Expand 1).Errored = true
  · rw [if_pos hQ]
    exact Expand_offset p 1
  · rw [if_neg hQ] at hne
    exact absurd hne hQ

theorem PackShort_fail_offset (p : Packer) (v : Nat)
    (hne : (p.PackShort v).Errored = true) : (p.PackShort v).offset = p.offset := by
  rw [Packer.PackShort] at hne ⊢
  by_cases hQ : (p.Expand 2).Errored = true
  · rw [if_pos hQ]
    exact Expand_offset p 2
  · rw [if_neg hQ] at hne
    exact absurd hne hQ

theorem PackInt_fail_offset (p : Packer) (v : Nat)
    (hne : (p.PackInt v).Errored = true) : (p.PackInt v).offset = p.offset := by
  rw [Packer.PackInt] at hne ⊢
  by_cases hQ : (p.Expand 4).Errored = true
  · rw [if_pos hQ]
    exact Expand_offset p 4
  · rw [if_neg hQ] at hne
    exact absurd hne hQ

theorem PackLong_fail_offset (p : Packer) (v : Nat)
    (hne : (p.PackLong v).Errored = true) : (p.PackLong v).offset = p.offset := by
  rw [Packer.PackLong] at hne ⊢
  by_cases hQ : (p.Expand 8).Errored = true
  · rw [if_pos hQ]
    exact Expand_offset p 8
  · rw [if_neg hQ] at hne
    exact absurd hne hQ

theorem PackFixedBytes_fail_offset (p : Packer) (bs : List Nat)
    (hne : (p.PackFixedBytes bs).Errored = true) :
    (p.PackFixedBytes bs).offset = p.offset := by
  rw [Packer.PackFixedBytes] at hne ⊢
  by_cases hQ : (p.Expand bs.length).Errored = true
  · rw [if_pos hQ]
    exact Expand_offset p bs.length
  · rw [if_neg hQ] at hne
    exact absurd hne hQ

theorem UnpackByte_fail_offset (p : Packer)
    (hne : (p.UnpackByte).2.Errored = true) : (p.UnpackByte).2.offset = p.offset := by
  rw [Packer.UnpackByte] at hne ⊢
  by_cases hQ : (p.CheckSpace 1).Errored = true
  · rw [if_pos hQ]
    exact (CheckSpace_preserve p 1).2.1
  · rw [if_neg hQ] at hne
    exact absurd hne hQ

theorem UnpackShort_fail_offset (p : Packer)
    (hne : (p.UnpackShort).2.Errored = true) : (p.UnpackShort).2.offset = p.offset := by
  rw [Packer.UnpackShort] at hne ⊢
  by_cases hQ : (p.CheckSpace 2).Errored = true
  · rw [if_pos hQ]
    exact (CheckSpace_preserve p 2).2.1
  · rw [if_neg hQ] at hne
    exact absurd hne hQ

theorem UnpackInt_fail_offset (p : Packer)
    (hne : (p.UnpackInt).2.Errored = true) : (p.UnpackInt).2.offset = p.offset := by
  rw [Packer.UnpackInt] at hne ⊢
  by_cases hQ : (p.CheckSpace 4).Errored = true
  · rw [if_pos hQ]
    exact (CheckSpace_preserve p 4).2.1
  · rw [if_neg hQ] at hne
    exact absurd hne hQ

theorem UnpackLong_fail_offset (p : Packer)
    (hne : (p.UnpackLong).2.Errored = true) : (p.UnpackLong).2.offset = p.offset := by
  rw [Packer.UnpackLong] at hne ⊢
  by_cases hQ : (p.CheckSpace 8).Errored = true
  · rw [if_pos hQ]
    exact (CheckSpace_preserve p 8).2.1
  · rw [if_neg hQ] at hne
    exact absurd hne hQ

theorem UnpackFixedBytes_fail_offset (p : Packer) (size : Int)
    (hne : (p.UnpackFixedBytes size).2.Errored = true) :
    (p.UnpackFixedBytes size).2.offset = p.offset := by
  rw [Packer.UnpackFixedBytes] at hne ⊢
  by_cases hQ : (p.CheckSpace size).Errored = true
  · rw [if_pos hQ]
    exact (CheckSpace_preserve p size).2.1
  · rw [if_neg hQ] at hne
    exact absurd hne hQ

theorem Expand_errs_extends (p : Packer) (n : Int) :
    ∃ t, (p.Expand n).errs = p.errs ++ t := by
  have hcs : (p.CheckSpace 0).errs = p.errs ∨
      ∃ e, (p.CheckSpace 0).errs = p.errs ++ [e] := CheckSpace_errs p 0
  have hext : ∃ t, (p.CheckSpace 0).errs = p.errs ++ t := by
    rcases hcs with h | ⟨e, h⟩
    exacts [⟨[], by simp [h]⟩, ⟨[e], h⟩]
  obtain ⟨t, ht⟩ := hext
  rw [Packer.Expand]
  dsimp only
  split_ifs <;>
    first
      | exact ⟨t, ht⟩
      | exact ⟨t ++ [PackErr.badLength], by simp [Packer.Add, ht]⟩

theorem PackShort_errs_extends (p : Packer) (v : Nat) :
    ∃ t, (p.PackShort v).errs = p.errs ++ t := by
  rw [Packer.PackShort]
  obtain ⟨t, ht⟩ := Expand_errs_extends p 2
  by_cases hQ : (p.Expand 2).Errored = true
  · rw [if_pos hQ]
    exact ⟨t, ht⟩
  · rw [if_neg hQ]
    exact ⟨t, ht⟩

theorem PackFixedBytes_errs_extends (p : Packer) (bs : List Nat) :
    ∃ t, (p.PackFixedBytes bs).errs = p.errs ++ t := by
  rw [Packer.PackFixedBytes]
  obtain ⟨t, ht⟩ := Expand_errs_extends p bs.length
  by_cases hQ : (p.Expand bs.length).Errored = true
  · rw [if_pos hQ]
    exact ⟨t, ht⟩
  · rw [if_neg hQ]
    exact ⟨t, ht⟩

theorem PackStr_oversize (p : Packer) (s : List Nat) (hs : 65535 < s.length) :
    (p.PackStr s).offset = p.offset ∧ (p.PackStr s).bytes = p.bytes ∧
      PackErr.invalidInput ∈ (p.PackStr s).errs := by
  rw [Packer.PackStr, if_pos hs]
  obtain ⟨h1b, h1o, h1e⟩ :=
    PackShort_noop (p.Add .invalidInput) s.length (Add_errored p .invalidInput)
  obtain ⟨h2b, h2o, h2e⟩ := PackFixedBytes_noop _ s h1e
  obtain ⟨hab, hao, ham⟩ := Add_preserve p .invalidInput
  refine ⟨by rw [h2o, h1o, hao], by rw [h2b, h1b, hab], ?_⟩
  have hsub : PackErr.invalidInput ∈ (p.Add .invalidInput).errs := by
    simp [Packer.Add]
  rcases PackShort_errs_extends (p.Add .invalidInput) s.length with ⟨t, ht⟩
  rcases PackFixedBytes_errs_extends ((p.Add .invalidInput).PackShort s.length) s with ⟨u, hu⟩
  rw [hu, ht]
  simp [Packer.Add, List.mem_append]

theorem Errored_update_offset (q : Packer) (x : Int) :
    ({ q with offset := x } : Packer).Errored = q.Errored := rfl

theorem UnpackBool_checkfail_offset (p : Packer)
    (hq : (p.CheckSpace 1).Errored = true) :
    (p.UnpackBool).2.offset = p.offset := by
  have hub : p.UnpackByte = (0, p.CheckSpace 1) := by
    rw [Packer.UnpackByte]
    simp [hq]
  rw [Packer.UnpackBool, hub]
  simp
  exact (CheckSpace_preserve p 1).2.1

theorem UnpackBool_badbyte_offset (p : Packer)
    (hq : (p.CheckSpace 1).Errored = false)
    (hne : (p.UnpackBool).2.Errored = true) :
    (p.UnpackBool).2.offset = p.offset + 1 := by
  have hub : p.UnpackByte =
      ((p.CheckSpace 1).bytes.getD (p.CheckSpace 1).offset.toNat 0,
        { p.CheckSpace 1 with offset := (p.CheckSpace 1).offset + 1 }) := by
    rw [Packer.UnpackByte]
    simp [hq]
  rw [Packer.UnpackBool, hub] at hne ⊢
  dsimp only at hne ⊢
  split_ifs at hne ⊢ with h1 h2
  · rw [Errored_update_offset, hq] at hne
    exact absurd hne (by simp)
  · rw [Errored_update_offset, hq] at hne
    exact absurd hne (by simp)
  · rw [(Add_preserve _ .badBool).2.1]
    dsimp only
    rw [(CheckSpace_preserve p 1).2.1]

/-- C4 amended: every primitive pack or unpack operation that fails its own
CheckSpace or Expand guard leaves Offset unchanged; CheckSpace and Expand
themselves never move Offset; PackStr's oversize check leaves Offset and
Bytes unchanged.  UnpackBool on a byte other than 0 or 1, however, records
BadBool only after consuming the byte, and so leaves Offset advanced by 1;
compound operations can likewise advance Offset by their successful prefix
before a later step fails. -/
theorem offset_on_failure_amended (p : Packer) (n : Int) (v : Nat) (bs s : List Nat) :
    ((p.CheckSpace n).offset = p.offset) ∧
    ((p.Expand n).offset = p.offset) ∧
    ((p.PackByte v).Errored = true → (p.PackByte v).offset = p.offset) ∧
    ((p.PackShort v).Errored = true → (p.PackShort v).offset = p.offset) ∧
    ((p.PackInt v).Errored = true → (p.PackInt v).offset = p.offset) ∧
    ((p.PackLong v).Errored = true → (p.PackLong v).offset = p.offset) ∧
    ((p.PackFixedBytes bs).Errored = true → (p.PackFixedBytes bs).offset = p.offset) ∧
    (65535 < s.length →
      (p.PackStr s).offset = p.offset ∧ (p.PackStr s).bytes = p.bytes) ∧
    ((p.UnpackByte).2.Errored = true → (p.UnpackByte).2.offset = p.offset) ∧
    ((p.UnpackShort).2.Errored = true → (p.UnpackShort).2.offset = p.offset) ∧
    ((p.UnpackInt).2.Errored = true → (p.UnpackInt).2.offset = p.offset) ∧
    ((p.UnpackLong).2.Errored = true → (p.UnpackLong).2.offset = p.offset) ∧
    ((p.UnpackFixedBytes n).2.Errored = true →
      (p.UnpackFixedBytes n).2.offset = p.offset) ∧
    ((p.CheckSpace 1).Errored = true → (p.UnpackBool).2.offset = p.offset) ∧
    ((p.CheckSpace 1).Errored = false → (p.UnpackBool).2.Errored = true →
      (p.UnpackBool).2.offset = p.offset + 1) := by
  refine ⟨(CheckSpace_preserve p n).2.1, Expand_offset p n,
    PackByte_fail_offset p v, PackShort_fail_offset p v, PackInt_fail_offset p v,
    PackLong_fail_offset p v, PackFixedBytes_fail_offset p bs,
    fun hs => ⟨(PackStr_oversize p s hs).1, (PackStr_oversize p s hs).2.1⟩,
    UnpackByte_fail_offset p, UnpackShort_fail_offset p, UnpackInt_fail_offset p,
    UnpackLong_fail_offset p, UnpackFixedBytes_fail_offset p n,
    UnpackBool_checkfail_offset p, UnpackBool_badbyte_offset p⟩

/-- Witness for the amended C4: on the packer with Bytes = [2], UnpackShort
fails its space check and leaves Offset at 0, while UnpackBool fails on the
bad byte and leaves Offset at 1. -/
theorem offset_on_failure_amended_witness :
    ((Packer.UnpackShort ⟨[], 4, [2], 0⟩).2.Errored = true) ∧
    ((Packer.UnpackShort ⟨[], 4, [2], 0⟩).2.offset = 0) ∧
    ((Packer.CheckSpace ⟨[], 4, [2], 0⟩ 1).Errored = false) ∧
    ((Packer.UnpackBool ⟨[], 4, [2], 0⟩).2.Errored = true) ∧
    ((Packer.UnpackBool ⟨[], 4, [2], 0⟩).2.offset = 0 + 1) := by
  obtain ⟨-, -, -, -, -, -, -, -, -, hShort, -, -, -, -, hBool⟩ :=
    offset_on_failure_amended ⟨[], 4, [2], 0⟩ 1 0 [] []
  exact ⟨by decide, hShort (by decide), by decide, by decide,
    hBool (by decide) (by decide)⟩

/-- C8: on an error-free packer in append position with enough remaining
capacity, PackStr of an exactly-65535-byte string writes the 2-byte length
prefix and the content and stays error-free; PackStr of a string of 65536
bytes or more records InvalidInput and leaves Bytes and Offset unchanged. -/
theorem packStr_boundary (p : Packer) (s t : List Nat)
    (he : p.errs = []) (hoff : p.offset = (p.bytes.length : Int))
    (hm : p.offset + 65537 ≤ p.maxSize) (hs : s.length = 65535)
    (ht : 65536 ≤ t.length) :
    p.PackStr s = ⟨[], p.maxSize, p.bytes ++ (beBytes 2 65535 ++ s), p.offset + 65537⟩ ∧
    ((p.PackStr t).offset = p.offset ∧ (p.PackStr t).bytes = p.bytes ∧
      PackErr.invalidInput ∈ (p.PackStr t).errs) := by
  constructor
  · have h := PackStr_append p s (by omega) he hoff (by omega)
    rw [hs] at h
    convert h using 2
  · exact PackStr_oversize p t (by omega)

/-- Witness for C8 at the exact 65535/65536 boundary strings. -/
theorem packStr_boundary_witness :
    ((freshPacker 100000).errs = [] ∧
      (freshPacker 100000).offset = (((freshPacker 100000).bytes.length : Nat) : Int) ∧
      (freshPacker 100000).offset + 65537 ≤ (freshPacker 100000).maxSize ∧
      (List.replicate 65535 97).length = 65535 ∧
      65536 ≤ (List.replicate 65536 98).length) ∧
    ((freshPacker 100000).PackStr (List.replicate 65535 97) =
      ⟨[], (freshPacker 100000).maxSize,
        (freshPacker 100000).bytes ++ (beBytes 2 65535 ++ List.replicate 65535 97),
        (freshPacker 100000).offset + 65537⟩ ∧
    (((freshPacker 100000).PackStr (List.replicate 65536 98)).offset =
        (freshPacker 100000).offset ∧
      ((freshPacker 100000).PackStr (List.replicate 65536 98)).bytes =
        (freshPacker 100000).bytes ∧
      PackErr.invalidInput ∈
        ((freshPacker 100000).PackStr (List.replicate 65536 98)).errs)) := by
  refine ⟨⟨rfl, rfl, by decide, List.length_replicate 65535 97, by rw [List.length_replicate]⟩, ?_⟩
  exact packStr_boundary (freshPacker 100000) (List.replicate 65535 97)
    (List.replicate 65536 98) rfl rfl (by decide)
    (List.length_replicate 65535 97) (by rw [List.length_replicate])

theorem CheckSpace_ok (p : Packer) (n : Int) (h : (p.CheckSpace n).Errored = false) :
    0 ≤ p.offset ∧ 0 ≤ n ∧ p.offset + n ≤ (p.bytes.length : Int) ∧
      p.CheckSpace n = p := by
  rw [Packer.CheckSpace] at h
  split_ifs at h with h1 h2 h3
  · simp [Packer.Add, Packer.Errored] at h
  · simp [Packer.Add, Packer.Errored] at h
  · simp [Packer.Add, Packer.Errored] at h
  · exact ⟨by omega, by omega, by omega,
      by rw [Packer.CheckSpace, if_neg h1, if_neg h2, if_neg h3]⟩

theorem UnpackByte_inv (p : Packer) (h0 : 0 ≤ p.offset)
    (h1 : p.offset ≤ (p.bytes.length : Int)) :
    (p.UnpackByte).2.bytes = p.bytes ∧ 0 ≤ (p.UnpackByte).2.offset ∧
      (p.UnpackByte).2.offset ≤ ((p.UnpackByte).2.bytes.length : Int) := by
  rw [Packer.UnpackByte]
  by_cases hq : (p.CheckSpace 1).Errored = true
  · rw [if_pos hq]
    obtain ⟨hb, ho, -⟩ := CheckSpace_preserve p 1
    exact ⟨hb, by rw [ho]; omega, by rw [ho, hb]; omega⟩
  · obtain ⟨-, -, hlen, hcs⟩ := CheckSpace_ok p 1 (by simpa using hq)
    rw [if_neg hq, hcs]
    dsimp only
    exact ⟨rfl, by omega, by omega⟩

theorem UnpackShort_inv (p : Packer) (h0 : 0 ≤ p.offset)
    (h1 : p.offset ≤ (p.bytes.length : Int)) :
    (p.UnpackShort).2.bytes = p.bytes ∧ 0 ≤ (p.UnpackShort).2.offset ∧
      (p.UnpackShort).2.offset ≤ ((p.UnpackShort).2.bytes.length : Int) := by
  rw [Packer.UnpackShort]
  by_cases hq : (p.CheckSpace 2).Errored = true
  · rw [if_pos hq]
    obtain ⟨hb, ho, -⟩ := CheckSpace_preserve p 2
    exact ⟨hb, by rw [ho]; omega, by rw [ho, hb]; omega⟩
  · obtain ⟨-, -, hlen, hcs⟩ := CheckSpace_ok p 2 (by simpa using hq)
    rw [if_neg hq, hcs]
    dsimp only
    exact ⟨rfl, by omega, by omega⟩

theorem UnpackInt_inv (p : Packer) (h0 : 0 ≤ p.offset)
    (h1 : p.offset ≤ (p.bytes.length : Int)) :
    (p.UnpackInt).2.bytes = p.bytes ∧ 0 ≤ (p.UnpackInt).2.offset ∧
      (p.UnpackInt).2.offset ≤ ((p.UnpackInt).2.bytes.length : Int) := by
  rw [Packer.UnpackInt]
  by_cases hq : (p.CheckSpace 4).Errored = true
  · rw [if_pos hq]
    obtain ⟨hb, ho, -⟩ := CheckSpace_preserve p 4
    exact ⟨hb, by rw [ho]; omega, by rw [ho, hb]; omega⟩
  · obtain ⟨-, -, hlen, hcs⟩ := CheckSpace_ok p 4 (by simpa using hq)
    rw [if_neg hq, hcs]
    dsimp only
    exact ⟨rfl, by omega, by omega⟩

theorem UnpackLong_inv (p : Packer) (h0 : 0 ≤ p.offset)
    (h1 : p.offset ≤ (p.bytes.length : Int)) :
    (p.UnpackLong).2.bytes = p.bytes ∧ 0 ≤ (p.UnpackLong).2.offset ∧
      (p.UnpackLong).2.offset ≤ ((p.UnpackLong).2.bytes.length : Int) := by
  rw [Packer.UnpackLong]
  by_cases hq : (p.CheckSpace 8).Errored = true
  · rw [if_pos hq]
    obtain ⟨hb, ho, -⟩ := CheckSpace_preserve p 8
    exact ⟨hb, by rw [ho]; omega, by rw [ho, hb]; omega⟩
  · obtain ⟨-, -, hlen, hcs⟩ := CheckSpace_ok p 8 (by simpa using hq)
    rw [if_neg hq, hcs]
    dsimp only
    exact ⟨rfl, by omega, by omega⟩

theorem UnpackFixedBytes_inv (p : Packer) (size : Int) (h0 : 0 ≤ p.offset)
    (h1 : p.offset ≤ (p.bytes.length : Int)) :
    (p.UnpackFixedBytes size).2.bytes = p.bytes ∧
      0 ≤ (p.UnpackFixedBytes size).2.offset ∧
      (p.UnpackFixedBytes size).2.offset ≤
        ((p.UnpackFixedBytes size).2.bytes.length : Int) := by
  rw [Packer.UnpackFixedBytes]
  by_cases hq : (p.CheckSpace size).Errored = true
  · rw [if_pos hq]
    obtain ⟨hb, ho, -⟩ := CheckSpace_preserve p size
    exact ⟨hb, by rw [ho]; omega, by rw [ho, hb]; omega⟩
  · obtain ⟨-, hsz, hlen, hcs⟩ := CheckSpace_ok p size (by simpa using hq)
    rw [if_neg hq, hcs]
    dsimp only
    exact ⟨rfl, by omega, by omega⟩

theorem UnpackBool_inv (p : Packer) (h0 : 0 ≤ p.offset)
    (h1 : p.offset ≤ (p.bytes.length : Int)) :
    (p.UnpackBool).2.bytes = p.bytes ∧ 0 ≤ (p.UnpackBool).2.offset ∧
      (p.UnpackBool).2.offset ≤ ((p.UnpackBool).2.bytes.length : Int) := by
  obtain ⟨hb, ho1, ho2⟩ := UnpackByte_inv p h0 h1
  rw [Packer.UnpackBool]
  split_ifs
  · exact ⟨hb, ho1, ho2⟩
  · exact ⟨hb, ho1, ho2⟩
  · obtain ⟨hab, hao, -⟩ := Add_preserve (p.UnpackByte).2 .badBool
    exact ⟨by rw [hab, hb], by rw [hao]; omega, by rw [hao, hab, hb]; rw [hb] at ho2; omega⟩

theorem UnpackBytes_inv (p : Packer) (h0 : 0 ≤ p.offset)
    (h1 : p.offset ≤ (p.bytes.length : Int)) :
    (p.UnpackBytes).2.bytes = p.bytes ∧ 0 ≤ (p.UnpackBytes).2.offset ∧
      (p.UnpackBytes).2.offset ≤ ((p.UnpackBytes).2.bytes.length : Int) := by
  obtain ⟨hb, ho1, ho2⟩ := UnpackInt_inv p h0 h1
  obtain ⟨hb2, ho3, ho4⟩ := UnpackFixedBytes_inv (p.UnpackInt).2 (p.UnpackInt).1 ho1
    ho2
  rw [Packer.UnpackBytes]
  exact ⟨by rw [hb2, hb], ho3, ho4⟩

theorem UnpackStr_inv (p : Packer) (h0 : 0 ≤ p.offset)
    (h1 : p.offset ≤ (p.bytes.length : Int)) :
    (p.UnpackStr).2.bytes = p.bytes ∧ 0 ≤ (p.UnpackStr).2.offset ∧
      (p.UnpackStr).2.offset ≤ ((p.UnpackStr).2.bytes.length : Int) := by
  obtain ⟨hb, ho1, ho2⟩ := UnpackShort_inv p h0 h1
  obtain ⟨hb2, ho3, ho4⟩ := UnpackFixedBytes_inv (p.UnpackShort).2 (p.UnpackShort).1 ho1
    ho2
  rw [Packer.UnpackStr]
  exact ⟨by rw [hb2, hb], ho3, ho4⟩

theorem UnpackIP_inv (p : Packer) (h0 : 0 ≤ p.offset)
    (h1 : p.offset ≤ (p.bytes.length : Int)) :
    (p.UnpackIP).2.bytes = p.bytes ∧ 0 ≤ (p.UnpackIP).2.offset ∧
      (p.UnpackIP).2.offset ≤ ((p.UnpackIP).2.bytes.length : Int) := by
  obtain ⟨hb, ho1, ho2⟩ := UnpackFixedBytes_inv p 16 h0 h1
  obtain ⟨hb2, ho3, ho4⟩ := UnpackShort_inv (p.UnpackFixedBytes 16).2 ho1
    ho2
  rw [Packer.UnpackIP]
  exact ⟨by rw [hb2, hb], ho3, ho4⟩

theorem UnpackFBSLoop_inv (size : Int) (k : Nat) :
    ∀ p : Packer, 0 ≤ p.offset → p.offset ≤ (p.bytes.length : Int) →
      (UnpackFBSLoop size k p).2.bytes = p.bytes ∧
      0 ≤ (UnpackFBSLoop size k p).2.offset ∧
      (UnpackFBSLoop size k p).2.offset ≤
        ((UnpackFBSLoop size k p).2.bytes.length : Int) := by
  induction k with
  | zero => intro p h0 h1; exact ⟨rfl, h0, h1⟩
  | succ k ih =>
    intro p h0 h1
    rw [UnpackFBSLoop]
    by_cases hq : p.Errored = true
    · rw [if_pos hq]
      exact ⟨rfl, h0, h1⟩
    · rw [if_neg hq]
      obtain ⟨hb, ho1, ho2⟩ := UnpackFixedBytes_inv p size h0 h1
      obtain ⟨hb2, ho3, ho4⟩ := ih (p.UnpackFixedBytes size).2 ho1
        ho2
      exact ⟨by rw [hb2, hb], ho3, ho4⟩

theorem UnpackFixedByteSlices_inv (p : Packer) (size : Int) (h0 : 0 ≤ p.offset)
    (h1 : p.offset ≤ (p.bytes.length : Int)) :
    (p.UnpackFixedByteSlices size).2.bytes = p.bytes ∧
      0 ≤ (p.UnpackFixedByteSlices size).2.offset ∧
      (p.UnpackFixedByteSlices size).2.offset ≤
        ((p.UnpackFixedByteSlices size).2.bytes.length : Int) := by
  obtain ⟨hb, ho1, ho2⟩ := UnpackInt_inv p h0 h1
  obtain ⟨hb2, ho3, ho4⟩ := UnpackFBSLoop_inv size (p.UnpackInt).1 (p.UnpackInt).2 ho1
    ho2
  rw [Packer.UnpackFixedByteSlices]
  exact ⟨by rw [hb2, hb], ho3, ho4⟩

theorem UnpackIPsLoop_inv (k : Nat) :
    ∀ p : Packer, 0 ≤ p.offset → p.offset ≤ (p.bytes.length : Int) →
      (UnpackIPsLoop k p).2.bytes = p.bytes ∧
      0 ≤ (UnpackIPsLoop k p).2.offset ∧
      (UnpackIPsLoop k p).2.offset ≤ ((UnpackIPsLoop k p).2.bytes.length : Int) := by
  induction k with
  | zero => intro p h0 h1; exact ⟨rfl, h0, h1⟩
  | succ k ih =>
    intro p h0 h1
    rw [UnpackIPsLoop]
    by_cases hq : p.Errored = true
    · rw [if_pos hq]
      exact ⟨rfl, h0, h1⟩
    · rw [if_neg hq]
      obtain ⟨hb, ho1, ho2⟩ := UnpackIP_inv p h0 h1
      obtain ⟨hb2, ho3, ho4⟩ := ih (p.UnpackIP).2 ho1 ho2
      exact ⟨by rw [hb2, hb], ho3, ho4⟩

theorem UnpackIPs_inv (p : Packer) (h0 : 0 ≤ p.offset)
    (h1 : p.offset ≤ (p.bytes.length : Int)) :
    (p.UnpackIPs).2.bytes = p.bytes ∧ 0 ≤ (p.UnpackIPs).2.offset ∧
      (p.UnpackIPs).2.offset ≤ ((p.UnpackIPs).2.bytes.length : Int) := by
  obtain ⟨hb, ho1, ho2⟩ := UnpackInt_inv p h0 h1
  obtain ⟨hb2, ho3, ho4⟩ := UnpackIPsLoop_inv (p.UnpackInt).1 (p.UnpackInt).2 ho1
    ho2
  rw [Packer.UnpackIPs]
  exact ⟨by rw [hb2, hb], ho3, ho4⟩

theorem unpackItem_inv (p : Packer) (it : Item) (h0 : 0 ≤ p.offset)
    (h1 : p.offset ≤ (p.bytes.length : Int)) :
    (unpackItem p it).2.bytes = p.bytes ∧ 0 ≤ (unpackItem p it).2.offset ∧
      (unpackItem p it).2.offset ≤ ((unpackItem p it).2.bytes.length : Int) := by
  cases it with
  | ibyte v => exact UnpackByte_inv p h0 h1
  | ibool b => exact UnpackBool_inv p h0 h1
  | ishort v => exact UnpackShort_inv p h0 h1
  | iint v => exact UnpackInt_inv p h0 h1
  | ilong v => exact UnpackLong_inv p h0 h1
  | ibytes bs => exact UnpackBytes_inv p h0 h1
  | ifixed bs => exact UnpackFixedBytes_inv p bs.length h0 h1
  | islices sz bss => exact UnpackFixedByteSlices_inv p sz h0 h1
  | istr s => exact UnpackStr_inv p h0 h1
  | iip d => exact UnpackIP_inv p h0 h1
  | iips ds => exact UnpackIPs_inv p h0 h1

theorem unpackItem_zero (q : Packer) (it : Item) (he : q.Errored = true) :
    (unpackItem q it).1 = zeroOf it := by
  cases it with
  | ibyte v => rw [unpackItem, UnpackByte_zero q he]; rfl
  | ibool b => rw [unpackItem, UnpackBool_zero q he]; rfl
  | ishort v => rw [unpackItem, UnpackShort_zero q he]; rfl
  | iint v => rw [unpackItem, UnpackInt_zero q he]; rfl
  | ilong v => rw [unpackItem, UnpackLong_zero q he]; rfl
  | ibytes bs => rw [unpackItem, zeroOf, (UnpackBytes_zero q he).1]
  | ifixed bs => rw [unpackItem, UnpackFixedBytes_zero q bs.length he]; rfl
  | islices sz bss => rw [unpackItem, UnpackFixedByteSlices_zero q sz he]; rfl
  | istr s => rw [unpackItem, zeroOf, (UnpackStr_zero q he).1]
  | iip d => rw [unpackItem, zeroOf, (UnpackIP_zero q he).1]
  | iips ds => rw [unpackItem, UnpackIPs_zero q he]; rfl

/-- C9: unpacking is safe on arbitrary, possibly malformed buffers.  Every
unpack operation preserves the bound 0 ≤ Offset ≤ len(Bytes) that keeps all
reads in range, and never modifies Bytes; on an errored packer every unpack
returns the zero value of its type; and both list-unpacking loops stop at
the first error, returning immediately on an errored packer whatever the
decoded element count was. -/
theorem unpack_safety (p : Packer) (it : Item) (size : Int) (k : Nat)
    (h0 : 0 ≤ p.offset) (h1 : p.offset ≤ (p.bytes.length : Int)) :
    ((unpackItem p it).2.bytes = p.bytes ∧
      0 ≤ (unpackItem p it).2.offset ∧
      (unpackItem p it).2.offset ≤ ((unpackItem p it).2.bytes.length : Int)) ∧
    (∀ q : Packer, q.Errored = true →
      (unpackItem q it).1 = zeroOf it ∧
      UnpackFBSLoop size k q = ([], q) ∧ UnpackIPsLoop k q = ([], q)) :=
  ⟨unpackItem_inv p it h0 h1,
    fun q hq => ⟨unpackItem_zero q it hq,
      UnpackFBSLoop_errored size k q hq, UnpackIPsLoop_errored k q hq⟩⟩

/-- Witness for C9 on a malformed buffer: a 4-byte buffer whose variable
length prefix claims 2^32 - 1 bytes. -/
theorem unpack_safety_witness :
    ((0 : Int) ≤ (Packer.mk [] 1000 [255, 255, 255, 255] 0).offset ∧
      (Packer.mk [] 1000 [255, 255, 255, 255] 0).offset ≤
        (((Packer.mk [] 1000 [255, 255, 255, 255] 0).bytes.length : Nat) : Int)) ∧
    (((unpackItem ⟨[], 1000, [255, 255, 255, 255], 0⟩ (Item.ibytes [])).2.bytes =
        [255, 255, 255, 255] ∧
      0 ≤ (unpackItem ⟨[], 1000, [255, 255, 255, 255], 0⟩ (Item.ibytes [])).2.offset ∧
      (unpackItem ⟨[], 1000, [255, 255, 255, 255], 0⟩ (Item.ibytes [])).2.offset ≤
        (((unpackItem ⟨[], 1000, [255, 255, 255, 255], 0⟩
          (Item.ibytes [])).2.bytes.length : Nat) : Int)) ∧
    (∀ q : Packer, q.Errored = true →
      (unpackItem q (Item.ibytes [])).1 = zeroOf (Item.ibytes []) ∧
      UnpackFBSLoop 32 5 q = ([], q) ∧ UnpackIPsLoop 5 q = ([], q))) := by
  refine ⟨⟨by decide, by decide⟩, ?_⟩
  exact unpack_safety ⟨[], 1000, [255, 255, 255, 255], 0⟩ (Item.ibytes []) 32 5
    (by decide) (by decide)

/-- Block lifecycle status, per the spec: Unknown, Processing, Accepted,
Rejected. -/
inductive Status where
  | unknown
  | processing
  | accepted
  | rejected
deriving DecidableEq

/-- Modelled from the spec: the serialized status field is a 4-byte
big-endian integer; src/ does not fix the numbering, so the spec's listing
order 0..3 is used (no claim depends on the numbers). -/
def statusCode : Status → Nat
  | .unknown => 0
  | .processing => 1
  | .accepted => 2
  | .rejected => 3

/-- Modelled from the spec: inverse of the status numbering, total with
default Rejected. -/
def decodeStatus (n : Nat) : Status :=
  if n = 0 then .unknown
  else if n = 1 then .processing
  else if n = 2 then .accepted
  else .rejected

/-- Modelled from the spec: the timestampvm Block record: parent_id
(32 bytes), data (exactly 32 bytes), timestamp (signed 64-bit Unix
seconds), with the derived fields bytes, id and status (the core.Block
type is not under src/). -/
structure Block where
  parentID : List Nat
  data : List Nat
  timestamp : Int
  bytes : List Nat
  id : List Nat
  status : Status
deriving DecidableEq

/-- ids.Empty: the all-zero 32-byte identifier. -/
def emptyID : List Nat := List.replicate 32 0

/-- Modelled from the spec: a block id is the SHA-256 digest of the
serialized bytes.  No claim depends on digest values, only on the
id–bytes association, so the digest is modelled as the injective identity
on byte strings (the hashing package is not under src/). -/
def blockHash (bs : List Nat) : List Nat := bs

/-- Modelled from the spec: the codec serializes a block as
parent_id (32) | status (int32) | data (32) | timestamp (int64),
76 bytes, big-endian (the codec package is not under src/). -/
def marshal (b : Block) : List Nat :=
  b.parentID ++ beBytes 4 (statusCode b.status) ++ b.data ++
    beBytes 8 (b.timestamp.emod (2 ^ 64)).toNat

/-- Two's-complement decoding of the 64-bit timestamp field. -/
def decodeTimestamp (n : Nat) : Int :=
  if n < 2 ^ 63 then (n : Int) else (n : Int) - 2 ^ 64

/-- The zero value of Block, as Go's &Block literal. -/
def zeroBlock : Block :=
  ⟨List.replicate 32 0, List.replicate 32 0, 0, [], [], .unknown⟩

/-- Modelled from the spec: codec.Unmarshal accepts exactly the 76-byte
layout above and fails on any other length. -/
def unmarshal (bs : List Nat) : Option Block :=
  if bs.length = 76 then
    some { parentID := readAt bs 0 32,
           status := decodeStatus (beRead (readAt bs 32 4)),
           data := readAt bs 36 32,
           timestamp := decodeTimestamp (beRead (readAt bs 68 8)),
           bytes := [], id := [] }
  else none

/-- The durable block store: an association from block id to
(serialized bytes, status), most recent binding first. -/
abbrev Store := List (List Nat × (List Nat × Status))

/-- Point lookup in the store. -/
def storeGet : Store → List Nat → Option (List Nat × Status)
  | [], _ => none
  | e :: rest, k => if e.1 = k then some e.2 else storeGet rest k

/-- The VM state: mempool of pending 32-byte payloads, preference and
last-accepted ids, the staged database (block store plus db_initialized
marker), its committed copy (the commit boundary of the database
collaborator), and the pending engine-notification flag. -/
structure VMState where
  mempool : List (List Nat)
  preferred : List Nat
  lastAccepted : List Nat
  db : Store
  dbInitialized : Bool
  committedDB : Store
  committedInit : Bool
  notifyPending : Bool
deriving DecidableEq

/-- The error results of the VM operations under verification. -/
inductive VMErr where
  | noPendingBlocks
  | badGenesisBytes
  | unmarshalFailed
deriving DecidableEq

/-- Modelled from the spec: NotifyBlockReady rings the level-triggered
engine doorbell; an already-pending token is coalesced. -/
def notifyBlockReady (vm : VMState) : VMState :=
  { vm with notifyPending := true }

/-- Modelled from the spec: core.Block.Initialize(bytes, vm) sets the
derived bytes and id; parse_block's contract supplies the status: if the
id is already in the store, the stored block's durable status is adopted
and the store is untouched, otherwise the block gets status Processing
and is persisted, which realizes build_block's persist-with-Processing
(core.Block.Initialize and the SnowmanVM store helpers are not under
src/). -/
def initializeBlock (vm : VMState) (b : Block) (bs : List Nat) : Block × VMState :=
  let i := blockHash bs
  match storeGet vm.db i with
  | some (_, st) => ({ b with bytes := bs, id := i, status := st }, vm)
  | none =>
    ({ b with bytes := bs, id := i, status := .processing },
     { vm with db := (i, (bs, Status.processing)) :: vm.db })

/-- VM.NewBlock (src/unnamed/part_001): build the record with the given
parent, data and timestamp (whole Unix seconds), marshal it, and
initialize the derived fields from the serialized bytes.  The modelled
codec is total, so the Go Marshal error path does not arise. -/
def newBlock (vm : VMState) (parentID : List Nat) (data : List Nat)
    (timestamp : Int) : Block × VMState :=
  let b : Block :=
    { parentID := parentID, data := data, timestamp := timestamp,
      bytes := [], id := [], status := .unknown }
  initializeBlock vm b (marshal b)

/-- VM.BuildBlock (src/unnamed/part_001): fail with NoPendingBlocks on an
empty mempool; otherwise pop the FIFO head, build a block on the current
preference with the current wallclock (passed as the now argument, whole
seconds), and re-signal the engine when the mempool is still non-empty. -/
def buildBlock (vm : VMState) (now : Int) : Except VMErr Block × VMState :=
  match vm.mempool with
  | [] => (.error .noPendingBlocks, vm)
  | value :: rest =>
    let vm1 := { vm with mempool := rest }
    let r := newBlock vm1 vm.preferred value now
    (.ok r.1, if rest.isEmpty then r.2 else notifyBlockReady r.2)

/-- VM.ParseBlock (src/unnamed/part_001): unmarshal, then Initialize with
the raw input bytes; the initialized block is returned together with the
unmarshal error. -/
def parseBlock (vm : VMState) (bs : List Nat) : (Block × VMState) × Option VMErr :=
  match unmarshal bs with
  | some b => (initializeBlock vm b bs, none)
  | none => (initializeBlock vm zeroBlock bs, some .unmarshalFailed)

/-- VM.proposeBlock (src/unnamed/part_001): append the payload to the
mempool and ring the engine doorbell. -/
def proposeBlock (vm : VMState) (data : List Nat) : VMState :=
  notifyBlockReady { vm with mempool := vm.mempool ++ [data] }

/-- Modelled from the spec: SnowmanVM.SaveBlock persists (bytes, status)
under the block id. -/
def saveBlock (vm : VMState) (b : Block) : VMState :=
  { vm with db := (b.id, (b.bytes, b.status)) :: vm.db }

/-- Modelled from the spec: db.Commit atomically flushes the staged store
and the db_initialized marker. -/
def commitDB (vm : VMState) : VMState :=
  { vm with committedDB := vm.db, committedInit := vm.dbInitialized }

/-- Modelled from the spec: Block.Accept sets the status to Accepted,
persists it, sets last_accepted_id and preferred_id to this block, and
commits (core is not under src/). -/
def acceptBlock (vm : VMState) (b : Block) : Block × VMState :=
  let b2 : Block := { b with status := .accepted }
  let vm2 := { vm with db := (b2.id, (b2.bytes, Status.accepted)) :: vm.db,
                       lastAccepted := b2.id, preferred := b2.id }
  (b2, commitDB vm2)

/-- The left-aligned zero-padded 32-byte genesis array, as the Go copy of
genesisData into a fresh [32]byte. -/
def genesisArr (gd : List Nat) : List Nat :=
  (gd ++ List.replicate 32 0).take 32

/-- VM.Initialize (src/unnamed/part_001): on an uninitialized database,
reject genesis data longer than 32 bytes with BadGenesisBytes before
touching the database; otherwise build the genesis block (parent the
all-zero id, timestamp 0), save it, accept it, set the initialized marker
and commit.  The embedded SnowmanVM.Initialize bookkeeping touches no
modelled state. -/
def vmInitialize (vm : VMState) (genesisData : List Nat) :
    Option VMErr × VMState :=
  if vm.dbInitialized then (none, vm)
  else if 32 < genesisData.length then (some .badGenesisBytes, vm)
  else
    let r := newBlock vm emptyID (genesisArr genesisData) 0
    let vm1 := saveBlock r.2 r.1
    let r2 := acceptBlock vm1 r.1
    (none, commitDB { r2.2 with dbInitialized := true })

/-- The record a non-genesis build serializes, before the derived fields
are filled in: parent is the current preference, data is the popped
payload, timestamp the wallclock. -/
def buildRecord (vm : VMState) (d : List Nat) (now : Int) : Block :=
  { parentID := vm.preferred, data := d, timestamp := now,
    bytes := [], id := [], status := .unknown }

/-- The record the genesis build serializes: parent the all-zero id, the
zero-padded data, timestamp 0. -/
def genesisRecord (gd : List Nat) : Block :=
  { parentID := emptyID, data := genesisArr gd, timestamp := 0,
    bytes := [], id := [], status := .unknown }

/-- C5: BuildBlock on an empty mempool fails with NoPendingBlocks and
changes nothing; on a non-empty mempool it pops exactly the FIFO head,
builds a block whose parent is the current preferred id and whose
timestamp is the given wallclock (whole seconds), persists it with status
Processing (provided its serialization is not already stored, a case the
spec leaves unspecified), returns it, and leaves the mempool equal to the
previous tail. -/
theorem buildBlock_spec (vm : VMState) (now : Int) :
    (vm.mempool = [] → buildBlock vm now = (.error .noPendingBlocks, vm)) ∧
    (∀ d rest, vm.mempool = d :: rest →
      storeGet vm.db (blockHash (marshal (buildRecord vm d now))) = none →
      ∃ blk vm2, buildBlock vm now = (.ok blk, vm2) ∧
        blk.parentID = vm.preferred ∧ blk.data = d ∧ blk.timestamp = now ∧
        blk.status = .processing ∧ blk.bytes = marshal (buildRecord vm d now) ∧
        blk.id = blockHash blk.bytes ∧
        vm2.mempool = rest ∧
        storeGet vm2.db blk.id = some (blk.bytes, .processing)) := by
  constructor
  · intro hm
    simp [buildBlock, hm]
  · intro d rest hm hfresh
    simp only [buildRecord] at hfresh ⊢
    have hnb : newBlock { vm with mempool := rest } vm.preferred d now =
        ({ parentID := vm.preferred, data := d, timestamp := now,
            bytes := marshal ⟨vm.preferred, d, now, [], [], .unknown⟩,
            id := blockHash (marshal ⟨vm.preferred, d, now, [], [], .unknown⟩),
            status := .processing },
          { vm with
            mempool := rest
            db := (blockHash (marshal ⟨vm.preferred, d, now, [], [], .unknown⟩),
              (marshal ⟨vm.preferred, d, now, [], [], .unknown⟩,
                Status.processing)) :: vm.db }) := by
      rw [newBlock, initializeBlock]
      dsimp only
      rw [hfresh]
    have hbb : buildBlock vm now =
        (.ok (newBlock { vm with mempool := rest } vm.preferred d now).1,
          if rest.isEmpty
          then (newBlock { vm with mempool := rest } vm.preferred d now).2
          else notifyBlockReady
            (newBlock { vm with mempool := rest } vm.preferred d now).2) := by
      rw [buildBlock.eq_def, hm]
    rw [hnb] at hbb
    cases rest with
    | nil =>
      exact ⟨_, _, hbb, rfl, rfl, rfl, rfl, rfl, rfl, rfl, by simp [storeGet]⟩
    | cons r0 rs =>
      exact ⟨_, _, hbb, rfl, rfl, rfl, rfl, rfl, rfl, rfl,
        by simp [storeGet, notifyBlockReady]⟩

/-- Witness for C5: an empty-mempool VM fails with NoPendingBlocks, and a
one-element mempool yields that element in a Processing block chained on
the preference. -/
theorem buildBlock_spec_witness :
    ((VMState.mk [] [0] [0] [] true [] true false).mempool = [] ∧
      buildBlock ⟨[], [0], [0], [], true, [], true, false⟩ 5 =
        (.error .noPendingBlocks, ⟨[], [0], [0], [], true, [], true, false⟩)) ∧
    ((VMState.mk [List.replicate 32 1] [7] [7] [] true [] true false).mempool =
        List.replicate 32 1 :: [] ∧
      storeGet (VMState.mk [List.replicate 32 1] [7] [7] [] true [] true false).db
        (blockHash (marshal (buildRecord
          ⟨[List.replicate 32 1], [7], [7], [], true, [], true, false⟩
          (List.replicate 32 1) 1000))) = none ∧
      ∃ blk vm2,
        buildBlock ⟨[List.replicate 32 1], [7], [7], [], true, [], true, false⟩ 1000 =
          (.ok blk, vm2) ∧
        blk.parentID =
          (VMState.mk [List.replicate 32 1] [7] [7] [] true [] true false).preferred ∧
        blk.data = List.replicate 32 1 ∧ blk.timestamp = 1000 ∧
        blk.status = .processing ∧
        blk.bytes = marshal (buildRecord
          ⟨[List.replicate 32 1], [7], [7], [], true, [], true, false⟩
          (List.replicate 32 1) 1000) ∧
        blk.id = blockHash blk.bytes ∧
        vm2.mempool = [] ∧
        storeGet vm2.db blk.id = some (blk.bytes, .processing)) := by
  refine ⟨⟨rfl, (buildBlock_spec ⟨[], [0], [0], [], true, [], true, false⟩ 5).1 rfl⟩,
    rfl, rfl, ?_⟩
  exact (buildBlock_spec ⟨[List.replicate 32 1], [7], [7], [], true, [], true, false⟩
    1000).2 (List.replicate 32 1) [] rfl rfl

/-- C6: parse_block computes the id of the input and consults the store:
if a block with that id is stored, the returned block carries the stored
durable status and the store is unchanged; otherwise the freshly parsed
block is returned with status Processing. -/
theorem parseBlock_lookup (vm : VMState) (bs sbs : List Nat) (st : Status) :
    (storeGet vm.db (blockHash bs) = some (sbs, st) →
      (parseBlock vm bs).1.1.status = st ∧
      (parseBlock vm bs).1.1.id = blockHash bs ∧
      (parseBlock vm bs).1.1.bytes = bs ∧
      (parseBlock vm bs).1.2 = vm) ∧
    (storeGet vm.db (blockHash bs) = none →
      (parseBlock vm bs).1.1.status = .processing ∧
      (parseBlock vm bs).1.1.id = blockHash bs ∧
      (parseBlock vm bs).1.1.bytes = bs) := by
  constructor <;> intro h <;> rw [parseBlock.eq_def] <;>
    cases hu : unmarshal bs <;> simp [initializeBlock, h]

/-- Witness for C6: parsing the bytes of a stored block returns its
durable Accepted status with the store unchanged; parsing unknown bytes
returns status Processing. -/
theorem parseBlock_lookup_witness :
    (storeGet (VMState.mk [] [] [] [(List.replicate 76 0, (List.replicate 76 0,
          Status.accepted))] true [] true false).db
        (blockHash (List.replicate 76 0)) =
        some (List.replicate 76 0, Status.accepted) ∧
      (parseBlock ⟨[], [], [], [(List.replicate 76 0, (List.replicate 76 0,
          Status.accepted))], true, [], true, false⟩
        (List.replicate 76 0)).1.1.status = Status.accepted ∧
      (parseBlock ⟨[], [], [], [(List.replicate 76 0, (List.replicate 76 0,
          Status.accepted))], true, [], true, false⟩
        (List.replicate 76 0)).1.2 =
        ⟨[], [], [], [(List.replicate 76 0, (List.replicate 76 0,
          Status.accepted))], true, [], true, false⟩) ∧
    (storeGet (VMState.mk [] [] [] [] true [] true false).db
        (blockHash (List.replicate 76 0)) = none ∧
      (parseBlock ⟨[], [], [], [], true, [], true, false⟩
        (List.replicate 76 0)).1.1.status = Status.processing) := by
  constructor
  · have h := (parseBlock_lookup ⟨[], [], [], [(List.replicate 76 0,
      (List.replicate 76 0, Status.accepted))], true, [], true, false⟩
      (List.replicate 76 0) (List.replicate 76 0) Status.accepted).1 (by decide)
    exact ⟨by decide, h.1, h.2.2.2⟩
  · have h := (parseBlock_lookup ⟨[], [], [], [], true, [], true, false⟩
      (List.replicate 76 0) [] Status.unknown).2 rfl
    exact ⟨rfl, h.1⟩

/-- C10: on every input the codec rejects, ParseBlock still returns a
block value initialized with the raw input bytes (and its derived id),
together with the error, rather than no block at all. -/
theorem parseBlock_error_block (vm : VMState) (bs : List Nat)
    (hu : unmarshal bs = none) :
    (parseBlock vm bs).2 = some .unmarshalFailed ∧
    (parseBlock vm bs).1.1.bytes = bs ∧
    (parseBlock vm bs).1.1.id = blockHash bs := by
  rw [parseBlock.eq_def, hu]
  rcases hsg : storeGet vm.db (blockHash bs) with - | ⟨p⟩ <;>
    simp [initializeBlock, hsg]

/-- Witness for C10 on a 3-byte input the codec rejects. -/
theorem parseBlock_error_block_witness :
    unmarshal [1, 2, 3] = none ∧
    (parseBlock ⟨[], [], [], [], true, [], true, false⟩ [1, 2, 3]).2 =
      some .unmarshalFailed ∧
    (parseBlock ⟨[], [], [], [], true, [], true, false⟩ [1, 2, 3]).1.1.bytes =
      [1, 2, 3] ∧
    (parseBlock ⟨[], [], [], [], true, [], true, false⟩ [1, 2, 3]).1.1.id =
      blockHash [1, 2, 3] := by
  refine ⟨by decide, ?_⟩
  have h := parseBlock_error_block ⟨[], [], [], [], true, [], true, false⟩ [1, 2, 3]
    (by decide)
  exact h

/-- C7: Initialize on an uninitialized database rejects genesis data
longer than 32 bytes with BadGenesisBytes, leaving the whole state
(staged and committed database included) unchanged; genesis data of at
most 32 bytes is left-aligned into a zero-padded 32-byte array and a
genesis block with the all-zero parent id and timestamp 0 is persisted
with status Accepted, becoming both preference and last accepted, with
the initialized marker set and everything committed. -/
theorem vmInitialize_genesis (vm : VMState) (gd : List Nat)
    (hinit : vm.dbInitialized = false) :
    (32 < gd.length → vmInitialize vm gd = (some .badGenesisBytes, vm)) ∧
    (gd.length ≤ 32 →
      genesisArr gd = gd ++ List.replicate (32 - gd.length) 0 ∧
      (genesisRecord gd).parentID = List.replicate 32 0 ∧
      (genesisRecord gd).timestamp = 0 ∧
      ∃ vm2, vmInitialize vm gd = (none, vm2) ∧
        storeGet vm2.db (blockHash (marshal (genesisRecord gd))) =
          some (marshal (genesisRecord gd), .accepted) ∧
        vm2.lastAccepted = blockHash (marshal (genesisRecord gd)) ∧
        vm2.preferred = blockHash (marshal (genesisRecord gd)) ∧
        vm2.dbInitialized = true ∧ vm2.committedInit = true ∧
        vm2.committedDB = vm2.db) := by
  constructor
  · intro hlen
    rw [vmInitialize, if_neg (by simp [hinit]), if_pos hlen]
  · intro hlen
    refine ⟨?_, rfl, rfl, ?_⟩
    · rw [genesisArr, List.take_append_eq_append_take,
        List.take_of_length_le hlen, List.take_replicate]
      have hmin : min (32 - gd.length) 32 = 32 - gd.length := by omega
      rw [hmin]
    · rw [vmInitialize.eq_def, if_neg (by simp [hinit]), if_neg (by omega)]
      rcases hsg : storeGet vm.db (blockHash (marshal (genesisRecord gd))) with - | ⟨p⟩ <;>
        simp only [genesisRecord] at hsg <;>
        refine ⟨_, rfl, ?_, ?_, ?_, ?_, ?_, ?_⟩ <;>
        simp [newBlock, initializeBlock, saveBlock, acceptBlock, commitDB,
          genesisRecord, hsg, storeGet]

/-- Witness for C7: a 33-byte genesis is rejected with the state intact; a
3-byte genesis is zero-padded, persisted and Accepted on a fresh VM. -/
theorem vmInitialize_genesis_witness :
    (VMState.mk [] [] [] [] false [] false false).dbInitialized = false ∧
    (32 < (List.replicate 33 0).length ∧
      vmInitialize ⟨[], [], [], [], false, [], false, false⟩ (List.replicate 33 0) =
        (some .badGenesisBytes, ⟨[], [], [], [], false, [], false, false⟩)) ∧
    ([1, 2, 3].length ≤ 32 ∧
      genesisArr [1, 2, 3] = [1, 2, 3] ++ List.replicate (32 - [1, 2, 3].length) 0 ∧
      (genesisRecord [1, 2, 3]).parentID = List.replicate 32 0 ∧
      (genesisRecord [1, 2, 3]).timestamp = 0 ∧
      ∃ vm2,
        vmInitialize ⟨[], [], [], [], false, [], false, false⟩ [1, 2, 3] = (none, vm2) ∧
        storeGet vm2.db (blockHash (marshal (genesisRecord [1, 2, 3]))) =
          some (marshal (genesisRecord [1, 2, 3]), .accepted) ∧
        vm2.lastAccepted = blockHash (marshal (genesisRecord [1, 2, 3])) ∧
        vm2.preferred = blockHash (marshal (genesisRecord [1, 2, 3])) ∧
        vm2.dbInitialized = true ∧ vm2.committedInit = true ∧
        vm2.committedDB = vm2.db) := by
  obtain ⟨hA, hB, hC, hD⟩ :=
    (vmInitialize_genesis ⟨[], [], [], [], false, [], false, false⟩ [1, 2, 3] rfl).2
      (by simp)
  exact ⟨rfl,
    ⟨by simp,
      (vmInitialize_genesis ⟨[], [], [], [], false, [], false, false⟩
        (List.replicate 33 0) rfl).1 (by simp)⟩,
    by simp, hA, hB, hC, hD⟩

end Gecko
